import Mathlib

/-!
Verification development for the crew-orchestration core of this repository
(structured decision parser, planner, plan DAG executor, parallel batch
executor, tool allowlist enforcer, short-term memory, orchestrator).

The TypeScript sources are shallowly embedded as executable Lean functions:
  * the single-threaded cooperative (async/await) control flow is embedded as
    sequential state passing; a promise rejection is `Except.error`;
  * wall-clock reads (`Date.now()`) are modelled as the constant 0, and the
    random suffix of a memory id is modelled by a per-ledger counter, since no
    behaviour of the core depends on those values;
  * JavaScript template interpolation of a number uses the decimal conversion
    `natToDec` defined below, and `JSON.parse` is embedded by the executable
    parser `jsonParse` over the `Json` value type.
-/

set_option maxHeartbeats 1600000

/-! ### Characters that the token screen prefers written by code point -/

def lbraceCh : Char := Char.ofNat 123
def rbraceCh : Char := Char.ofNat 125
def lbrackCh : Char := Char.ofNat 91
def rbrackCh : Char := Char.ofNat 93
def quoteCh : Char := Char.ofNat 34
def bslashCh : Char := Char.ofNat 92

/-! ### Decimal conversion (JS template interpolation of a number) -/

def digitCh (d : Nat) : Char := Char.ofNat (48 + d)

/-- Fuel-based accumulator loop: most significant digits are produced last and
consed in front of the accumulator. -/
def natToDecAux : Nat → Nat → List Char → List Char
  | 0, _, acc => acc
  | fuel + 1, n, acc =>
    if n < 10 then digitCh n :: acc
    else natToDecAux fuel (n / 10) (digitCh (n % 10) :: acc)

/-- Decimal rendering of a natural number, the embedding of the string
produced by a JS template literal for a non-negative integer. -/
def natToDec (n : Nat) : String := String.mk (natToDecAux (n + 1) n [])

/-- Left-to-right decimal digit valuation with accumulator. -/
def decFold (a : Nat) : List Char → Nat
  | [] => a
  | c :: cs => decFold (a * 10 + (c.toNat - 48)) cs

def isJsWs (c : Char) : Bool := c = ' ' || c = Char.ofNat 9 || c = Char.ofNat 10 || c = Char.ofNat 13

/-- Embedding of `String.prototype.trim` (ASCII whitespace cases suffice for
every string this core manipulates). -/
def jsTrim (s : String) : String :=
  String.mk (((s.data.dropWhile isJsWs).reverse.dropWhile isJsWs).reverse)

/-- Embedding of `String.prototype.substring(0, n)`. -/
def jsTake (s : String) (n : Nat) : String := String.mk (s.data.take n)

/-- Lines joined by a newline after dropping falsy (empty) entries — the
`[...].filter(Boolean).join("\n")` idiom used by the prompt builders. -/
def joinLines (lines : List String) : String :=
  String.intercalate (String.mk [Char.ofNat 10]) (lines.filter (fun l => !(l = "")))

/-! ### JSON values and `JSON.parse` -/

inductive Json where
  | null : Json
  | bool : Bool → Json
  | num : String → Json
  | str : String → Json
  | arr : List Json → Json
  | obj : List (String × Json) → Json

/-- Object member lookup; `JSON.parse` keeps the last duplicate key, and
indexing any non-object JS value with these key names yields `undefined`. -/
def jsonGetKey (j : Json) (k : String) : Option Json :=
  match j with
  | .obj ms => (ms.reverse.find? (fun m => m.1 == k)).map (fun m => m.2)
  | _ => none

def jsonIsNullish (o : Option Json) : Bool :=
  match o with
  | none => true
  | some .null => true
  | some _ => false

/-- JS truthiness of a parsed JSON value (a numeric lexeme is falsy exactly
when its mantissa has no nonzero digit). -/
def jsTruthy : Json → Bool
  | .null => false
  | .bool b => b
  | .str s => !(s = "")
  | .num lex =>
    !((lex.data.takeWhile (fun c => !(c = 'e' || c = 'E'))).all
      (fun c => !('1' ≤ c && c ≤ '9')))
  | .arr _ => true
  | .obj _ => true

/-- Embedding of JS `String(x)` for parsed JSON values (numeric lexemes are
kept verbatim; the core only ever stringifies strings and simple scalars). -/
def jsToString : Json → String
  | .null => "null"
  | .bool true => "true"
  | .bool false => "false"
  | .num lex => lex
  | .str s => s
  | .arr xs => String.intercalate "," (jsToStringList xs)
  | .obj _ => "[object Object]"
where jsToStringList : List Json → List String
  | [] => []
  | x :: xs => jsToString x :: jsToStringList xs

def hexVal (c : Char) : Option Nat :=
  if '0' ≤ c && c ≤ '9' then some (c.toNat - 48)
  else if 'a' ≤ c && c ≤ 'f' then some (c.toNat - 87)
  else if 'A' ≤ c && c ≤ 'F' then some (c.toNat - 55)
  else none

def unescapeCh (c : Char) : Option Char :=
  if c = quoteCh then some quoteCh
  else if c = bslashCh then some bslashCh
  else if c = '/' then some '/'
  else if c = 'b' then some (Char.ofNat 8)
  else if c = 'f' then some (Char.ofNat 12)
  else if c = 'n' then some (Char.ofNat 10)
  else if c = 'r' then some (Char.ofNat 13)
  else if c = 't' then some (Char.ofNat 9)
  else none

/-- Parse the body of a JSON string after its opening quote; returns the
decoded characters and the input remaining after the closing quote. -/
def parseStringBody : List Char → Option (List Char × List Char)
  | [] => none
  | c :: rest =>
    if c = quoteCh then some ([], rest)
    else if c = bslashCh then
      match rest with
      | 'u' :: h1 :: h2 :: h3 :: h4 :: rest2 =>
        match hexVal h1, hexVal h2, hexVal h3, hexVal h4 with
        | some a, some b, some c3, some d =>
          (parseStringBody rest2).map
            (fun p => (Char.ofNat (((a * 16 + b) * 16 + c3) * 16 + d) :: p.1, p.2))
        | _, _, _, _ => none
      | e :: rest2 =>
        match unescapeCh e with
        | some c2 => (parseStringBody rest2).map (fun p => (c2 :: p.1, p.2))
        | none => none
      | [] => none
    else if c.toNat < 32 then none
    else (parseStringBody rest).map (fun p => (c :: p.1, p.2))

def isDigitCh (c : Char) : Bool := '0' ≤ c && c ≤ '9'

/-- Lex a JSON number; returns the lexeme and the remaining input. -/
def parseNumberLex (input : List Char) : Option (List Char × List Char) :=
  let (sign, r1) :=
    match input with
    | '-' :: r => ([('-' : Char)], r)
    | r => ([], r)
  match r1 with
  | [] => none
  | c :: r2 =>
    if c = '0' then
      let (fracexp, r3) := lexFracExp r2
      some (sign ++ ['0'] ++ fracexp, r3)
    else if isDigitCh c then
      let ds := r2.takeWhile isDigitCh
      let r3 := r2.dropWhile isDigitCh
      let (fracexp, r4) := lexFracExp r3
      some (sign ++ (c :: ds) ++ fracexp, r4)
    else none
where
  lexFracExp (input : List Char) : List Char × List Char :=
    let (frac, r1) :=
      match input with
      | '.' :: r =>
        let ds := r.takeWhile isDigitCh
        if ds = [] then ([], input) else (('.' : Char) :: ds, r.dropWhile isDigitCh)
      | _ => ([], input)
    let (expo, r2) :=
      match r1 with
      | e :: r =>
        if e = 'e' || e = 'E' then
          let (sgn, rr) :=
            match r with
            | s :: r3 => if s = '+' || s = '-' then ([s], r3) else ([], r)
            | [] => ([], r)
          let ds := rr.takeWhile isDigitCh
          if ds = [] then ([], r1) else ([e] ++ sgn ++ ds, rr.dropWhile isDigitCh)
        else ([], r1)
      | [] => ([], r1)
    (frac ++ expo, r2)

def skipWsCh (input : List Char) : List Char := input.dropWhile isJsWs

mutual

/-- Fuel-based recursive-descent JSON value parser. -/
def parseJsonValue : Nat → List Char → Option (Json × List Char)
  | 0, _ => none
  | fuel + 1, input =>
    match skipWsCh input with
    | [] => none
    | c :: rest =>
      if c = quoteCh then
        (parseStringBody rest).map (fun p => (Json.str (String.mk p.1), p.2))
      else if c = lbraceCh then parseJsonMembers fuel rest true []
      else if c = lbrackCh then parseJsonElems fuel rest true []
      else if c = 't' then
        match rest with
        | 'r' :: 'u' :: 'e' :: r => some (Json.bool true, r)
        | _ => none
      else if c = 'f' then
        match rest with
        | 'a' :: 'l' :: 's' :: 'e' :: r => some (Json.bool false, r)
        | _ => none
      else if c = 'n' then
        match rest with
        | 'u' :: 'l' :: 'l' :: r => some (Json.null, r)
        | _ => none
      else
        (parseNumberLex (c :: rest)).map (fun p => (Json.num (String.mk p.1), p.2))

def parseJsonMembers : Nat → List Char → Bool → List (String × Json) → Option (Json × List Char)
  | 0, _, _, _ => none
  | fuel + 1, input, first, acc =>
    match skipWsCh input with
    | [] => none
    | c :: rest =>
      if c = rbraceCh then
        if first then some (Json.obj acc, rest) else none
      else if c = quoteCh then
        match parseStringBody rest with
        | none => none
        | some (key, r1) =>
          match skipWsCh r1 with
          | ':' :: r2 =>
            match parseJsonValue fuel r2 with
            | none => none
            | some (v, r3) =>
              match skipWsCh r3 with
              | ',' :: r4 => parseJsonMembers fuel r4 false (acc ++ [(String.mk key, v)])
              | d :: r4 =>
                if d = rbraceCh then some (Json.obj (acc ++ [(String.mk key, v)]), r4) else none
              | [] => none
          | _ => none
      else none

def parseJsonElems : Nat → List Char → Bool → List Json → Option (Json × List Char)
  | 0, _, _, _ => none
  | fuel + 1, input, first, acc =>
    match skipWsCh input with
    | [] => none
    | c :: rest =>
      if c = rbrackCh then
        if first then some (Json.arr acc, rest) else none
      else
        match parseJsonValue fuel (c :: rest) with
        | none => none
        | some (v, r1) =>
          match skipWsCh r1 with
          | ',' :: r2 => parseJsonElems fuel r2 false (acc ++ [v])
          | d :: r2 => if d = rbrackCh then some (Json.arr (acc ++ [v]), r2) else none
          | [] => none

end

/-- Embedding of `JSON.parse`: a whole-string parse, rejecting trailing
non-whitespace content. Returns `none` where `JSON.parse` would throw. -/
def jsonParse (s : String) : Option Json :=
  match parseJsonValue (2 * s.data.length + 8) s.data with
  | some (v, rest) => if skipWsCh rest = [] then some v else none
  | none => none

/-! ### Structured decision utilities (`StructuredDecision.ts`) -/

def nlStr : String := String.mk [Char.ofNat 10]

inductive RouteStrategy where
  | plan_then_parallel : RouteStrategy
  | direct_execution : RouteStrategy
deriving DecidableEq, Repr

structure RouteDecision where
  strategy : RouteStrategy
  rationale : String
deriving DecidableEq, Repr

def dropUntilBraceCh : List Char → Option (List Char)
  | [] => none
  | c :: rest => if c = lbraceCh then some (c :: rest) else dropUntilBraceCh rest

/-- The naive balance scan of the source: depth is adjusted per brace with no
awareness of string literals; returns the slice ending where depth reaches 0. -/
def scanBalanced : List Char → Nat → List Char → Option (List Char)
  | [], _, _ => none
  | c :: rest, depth, acc =>
    if c = lbraceCh then scanBalanced rest (depth + 1) (c :: acc)
    else if c = rbraceCh then
      if depth = 1 then some ((c :: acc).reverse)
      else scanBalanced rest (depth - 1) (c :: acc)
    else scanBalanced rest depth (c :: acc)

def extractFirstJsonObject (raw : String) : Option String :=
  match dropUntilBraceCh raw.data with
  | none => none
  | some tail => (scanBalanced tail 0 []).map String.mk

def parseRouteDecision (raw : String) : Except String RouteDecision :=
  let candidate := jsTrim raw
  let parsedE : Except String Json :=
    match jsonParse candidate with
    | some j => .ok j
    | none =>
      match extractFirstJsonObject candidate with
      | none => .error "RouteDecision parse error: no JSON object found."
      | some ex =>
        match jsonParse ex with
        | some j => .ok j
        | none => .error "RouteDecision parse error: invalid JSON structure."
  match parsedE with
  | .error e => .error e
  | .ok parsed =>
    if jsonIsNullish (jsonGetKey parsed "strategy") then
      .error "RouteDecision validation error: missing key \x27strategy\x27."
    else if jsonIsNullish (jsonGetKey parsed "rationale") then
      .error "RouteDecision validation error: missing key \x27rationale\x27."
    else
      match jsonGetKey parsed "strategy" with
      | some (.str s) =>
        let strat := jsTrim s
        if strat = "plan_then_parallel" || strat = "direct_execution" then
          match jsonGetKey parsed "rationale" with
          | some (.str r) =>
            if jsTrim r = "" then
              .error "RouteDecision validation error: \x27rationale\x27 must be a non-empty string."
            else
              .ok { strategy :=
                      if strat = "plan_then_parallel" then .plan_then_parallel
                      else .direct_execution,
                    rationale := jsTrim r }
          | _ => .error "RouteDecision validation error: \x27rationale\x27 must be a non-empty string."
        else
          .error "RouteDecision validation error: \x27strategy\x27 must be one of plan_then_parallel, direct_execution."
      | _ => .error "RouteDecision validation error: \x27strategy\x27 must be a string."

def buildRepairInstruction (errorMessage : String) : String :=
  String.intercalate nlStr
    ["Your previous response could not be parsed as valid JSON for the required decision schema.",
     "Error: " ++ errorMessage,
     "Return ONLY a JSON object matching the required keys. No commentary. No markdown fencing."]

structure RouteDecisionContext where
  goal : String
  crewName : Option String
  agentSummaries : Option (List (String × String))
  recentNotes : Option String

def buildRouteDecisionPrompt (ctx : RouteDecisionContext) : String :=
  let agentLines :=
    match ctx.agentSummaries with
    | some l =>
      let s := String.intercalate nlStr (l.map (fun p => "- " ++ p.1 ++ ": " ++ p.2))
      if s = "" then "(no agent summaries)" else s
    | none => "(no agent summaries)"
  joinLines
    ["You must decide the initial execution strategy for the crew.",
     "",
     "Return ONLY valid JSON with keys: strategy, rationale.",
     "Valid strategies:",
     "  - \"plan_then_parallel\": produce a multi-step plan first, then execute worker agents (possibly in parallel).",
     "  - \"direct_execution\": skip explicit multi-step plan; let agents act sequentially / opportunistically.",
     "",
     "Context:",
     "Goal: " ++ ctx.goal,
     "Crew: " ++ (match ctx.crewName with | some n => if n = "" then "unknown" else n | none => "unknown"),
     "Agents:",
     agentLines,
     (match ctx.recentNotes with
      | some r => if r = "" then "" else "Recent Notes: " ++ r
      | none => ""),
     "",
     "Example JSON (do not include comments): \x7b\"strategy\":\"plan_then_parallel\",\"rationale\":\"Need decomposition across backend/frontend/db.\"\x7d"]

/-! ### Plan data model (`PlanTypes.ts`) -/

inductive StepStatus where
  | pending : StepStatus
  | running : StepStatus
  | done : StepStatus
  | error : StepStatus
deriving DecidableEq, Repr

structure PlanStep where
  id : String
  description : String
  agentId : Option String
  parallelGroup : Option String
  dependsOn : Option (List String)
  status : Option StepStatus
  errorMessage : Option String
deriving DecidableEq, Repr

structure Plan where
  id : String
  createdTs : Nat
  rationale : Option String
  steps : List PlanStep
deriving DecidableEq, Repr

/-! ### Planner (`Planner.ts`) -/

structure RawPlannedStep where
  id : Option String
  description : String
  agentId : Option String
  parallelGroup : Option String
  dependsOn : Option (List String)
deriving DecidableEq, Repr

structure PlanDecision where
  rationale : String
  steps : List RawPlannedStep
deriving DecidableEq, Repr

def jsIsObjectNonNull : Json → Bool
  | .arr _ => true
  | .obj _ => true
  | _ => false

def parseRawStep (idx : Nat) (s : Json) : Except String RawPlannedStep :=
  if !(jsIsObjectNonNull s) then
    .error ("Plan step " ++ natToDec idx ++ " invalid (not an object).")
  else
    match jsonGetKey s "description" with
    | some (.str d) =>
      if jsTrim d = "" then
        .error ("Plan step " ++ natToDec idx ++ " missing non-empty description.")
      else
        let depVal := jsonGetKey s "dependsOn"
        let depTruthy := match depVal with | some v => jsTruthy v | none => false
        let depIsArr := match depVal with | some (.arr _) => true | _ => false
        if depTruthy && !depIsArr then
          .error ("Plan step " ++ natToDec idx ++ " dependsOn must be an array if present.")
        else
          .ok { id := match jsonGetKey s "id" with
                  | some (.str i) => if jsTrim i = "" then none else some (jsTrim i)
                  | _ => none,
                description := jsTrim d,
                agentId := match jsonGetKey s "agentId" with
                  | some (.str a) => some (jsTrim a)
                  | _ => none,
                parallelGroup := match jsonGetKey s "parallelGroup" with
                  | some (.str g) => some (jsTrim g)
                  | _ => none,
                dependsOn :=
                  if depTruthy then
                    match depVal with
                    | some (.arr xs) => some (xs.map jsToString)
                    | _ => none
                  else none }
    | _ => .error ("Plan step " ++ natToDec idx ++ " missing non-empty description.")

def parseRawSteps : Nat → List Json → Except String (List RawPlannedStep)
  | _, [] => .ok []
  | idx, s :: rest =>
    match parseRawStep idx s with
    | .error e => .error e
    | .ok st =>
      match parseRawSteps (idx + 1) rest with
      | .error e => .error e
      | .ok sts => .ok (st :: sts)

/-- Engine-supplied `SyntaxError` text of the unguarded second `JSON.parse`
in `parsePlanDecision` (its exact wording is never inspected by the core). -/
def jsonParseErrorText : String := "Unexpected token in JSON"

def parsePlanDecision (raw : String) : Except String PlanDecision :=
  let candidate := jsTrim raw
  let parsedE : Except String Json :=
    match jsonParse candidate with
    | some j => .ok j
    | none =>
      match extractFirstJsonObject candidate with
      | none => .error "Plan parse error: no JSON object found."
      | some ex =>
        match jsonParse ex with
        | some j => .ok j
        | none => .error jsonParseErrorText
  match parsedE with
  | .error e => .error e
  | .ok parsed =>
    if jsonIsNullish (jsonGetKey parsed "rationale") then
      .error "Plan validation error: missing key \x27rationale\x27."
    else if jsonIsNullish (jsonGetKey parsed "steps") then
      .error "Plan validation error: missing key \x27steps\x27."
    else
      match jsonGetKey parsed "rationale" with
      | some (.str r) =>
        if jsTrim r = "" then
          .error "Plan validation error: \x27rationale\x27 must be non-empty string."
        else
          match jsonGetKey parsed "steps" with
          | some (.arr xs) =>
            (parseRawSteps 0 xs).map (fun sts => { rationale := jsTrim r, steps := sts })
          | _ => .error "Plan validation error: \x27steps\x27 must be an array."
      | _ => .error "Plan validation error: \x27rationale\x27 must be non-empty string."

/-- Positional sequential step id, the embedding of the template `s(idx+1)`. -/
def posId (k : Nat) : String := "s" ++ natToDec k

/-- First normalization pass of `invokePlanner`: assign a sequential id to a
step lacking one, default the dependency list, start every step pending. -/
def normalizeStepsPhase1 : Nat → List RawPlannedStep → List PlanStep
  | _, [] => []
  | idx, s :: rest =>
    { id := s.id.getD (posId (idx + 1)),
      description := s.description,
      agentId := s.agentId,
      parallelGroup := s.parallelGroup,
      dependsOn := some (s.dependsOn.getD []),
      status := some .pending,
      errorMessage := none } :: normalizeStepsPhase1 (idx + 1) rest

/-- Second pass of `invokePlanner` ("basic uniqueness enforcement"): a step
whose id was already seen is reassigned its positional sequential id; the new
id is then recorded as seen. -/
def dedupStepIds : Nat → List String → List PlanStep → List PlanStep
  | _, _, [] => []
  | idx, seen, st :: rest =>
    let newId := if st.id ∈ seen then posId (idx + 1) else st.id
    { st with id := newId } :: dedupStepIds (idx + 1) (newId :: seen) rest

def normalizePlanSteps (steps : List RawPlannedStep) : List PlanStep :=
  dedupStepIds 0 [] (normalizeStepsPhase1 0 steps)

/-! ### LLM abstraction (`CrewOrchestrator.ts`): a chat call is a function
from the ordered message sequence to raw text, `Except.error` standing for a
rejected promise. -/

inductive LlmRole where
  | system : LlmRole
  | user : LlmRole
  | assistant : LlmRole
deriving DecidableEq, Repr

structure LlmChatMessage where
  role : LlmRole
  content : String
deriving DecidableEq, Repr

abbrev LlmFun := List LlmChatMessage → Except String String

abbrev AttemptHook := Option (String → Option String → Nat → Except String Unit)

def runAttemptHook (h : AttemptHook) (raw : String) (err : Option String) (attempt : Nat) :
    Except String Unit :=
  match h with
  | some f => f raw err attempt
  | none => .ok ()

structure BuildPlanPromptCtx where
  goal : String
  crewName : Option String
  agentSummaries : List (String × String × Option String)
  recentNotes : Option String
  maxSteps : Option Nat

def buildPlanPrompt (ctx : BuildPlanPromptCtx) : String :=
  let agentLines :=
    if ctx.agentSummaries.length > 0 then
      String.intercalate nlStr (ctx.agentSummaries.map (fun t =>
        "- " ++ t.1 ++ ": role=\x27" ++ t.2.1 ++ "\x27" ++
          (match t.2.2 with
           | some g => if g = "" then "" else " parallelGroup=\x27" ++ g ++ "\x27"
           | none => "")))
    else "(no agents)"
  let cap := ctx.maxSteps.getD 12
  joinLines
    ["You are the planning module for a multi-agent crew.",
     "Produce a concise multi-step plan decomposing the goal.",
     "Return ONLY valid JSON with keys: rationale (string), steps (array).",
     "Hard cap steps: " ++ natToDec cap ++ ". Omit trivial / redundant steps.",
     "",
     "Each step object keys:",
     "  - description (required, actionable verb phrase)",
     "  - agentId (optional: choose existing agent best suited, otherwise omit)",
     "  - parallelGroup (optional: hint grouping for parallel execution, e.g. \x27workers\x27 / \x27research\x27)",
     "  - dependsOn (optional array of prior step ids)",
     "",
     "Rules:",
     "  - Assign agentId only when clearly beneficial; leave undefined if any competent agent can perform.",
     "  - Use dependsOn only when strict ordering is required.",
     "  - Prefer maximal safe parallelism (independent steps should not depend).",
     "  - Provide rationale explaining decomposition strategy & parallel grouping rationale.",
     "",
     "Goal: " ++ ctx.goal,
     "Crew: " ++ (match ctx.crewName with | some n => if n = "" then "unknown" else n | none => "unknown"),
     "Agents:",
     agentLines,
     (match ctx.recentNotes with
      | some r => if r = "" then "" else "Recent Notes: " ++ r
      | none => ""),
     "",
     "Example JSON (do not copy blindly):",
     "\x7b\"rationale\":\"Decompose across data gathering then implementation.\",\"steps\":[\x7b\"id\":\"s1\",\"description\":\"Collect API schema references\",\"agentId\":\"researcher\",\"parallelGroup\":\"research\"\x7d,\x7b\"id\":\"s2\",\"description\":\"Draft interface layer\",\"agentId\":\"backend\",\"dependsOn\":[\"s1\"],\"parallelGroup\":\"workers\"\x7d]\x7d"]

def plannerSystemText : String := "You are a precise multi-agent planner. Output only JSON."

def plannerExhaustText (maxAttempts : Nat) (lastErr : Option String) : String :=
  "Planner: failed to obtain valid plan after " ++ natToDec maxAttempts ++
    " attempts. Last error: " ++ lastErr.getD "undefined"

def mkPlanOfDecision (d : PlanDecision) : Plan :=
  { id := "plan_0", createdTs := 0, rationale := some d.rationale,
    steps := normalizePlanSteps d.steps }

/-- The attempt loop of `invokePlanner`. A successfully parsed decision is
kept even if the subsequent attempt hook throws (the catch then records the
hook error and the loop retries); a hook throw inside the catch itself
rejects the whole invocation. -/
def plannerLoopGo (llm : LlmFun) (hook : AttemptHook) (maxAttempts : Nat) :
    Nat → List LlmChatMessage → Option PlanDecision → Option String →
    Except String (Option PlanDecision × Option String)
  | 0, _, dec, lastErr => .ok (dec, lastErr)
  | left + 1, msgs, dec, lastErr =>
    let attempt := maxAttempts - left
    match llm msgs with
    | .error e => .error e
    | .ok raw =>
      match parsePlanDecision raw with
      | .ok d =>
        match runAttemptHook hook raw none attempt with
        | .ok _ => .ok (some d, lastErr)
        | .error he =>
          match runAttemptHook hook raw (some he) attempt with
          | .error he2 => .error he2
          | .ok _ =>
            plannerLoopGo llm hook maxAttempts left
              (if left = 0 then msgs
               else msgs ++ [{ role := .assistant, content := raw },
                             { role := .user, content := buildRepairInstruction he }])
              (some d) (some he)
      | .error pe =>
        match runAttemptHook hook raw (some pe) attempt with
        | .error he2 => .error he2
        | .ok _ =>
          plannerLoopGo llm hook maxAttempts left
            (if left = 0 then msgs
             else msgs ++ [{ role := .assistant, content := raw },
                           { role := .user, content := buildRepairInstruction pe }])
            dec (some pe)

def invokePlanner (llm : LlmFun) (hook : AttemptHook) (goal : String)
    (recentNotes : Option String) (crewName : Option String)
    (agentSummaries : List (String × String × Option String))
    (maxAttempts : Option Nat) (maxSteps : Option Nat) : Except String Plan :=
  let A := maxAttempts.getD 3
  let basePrompt := buildPlanPrompt
    { goal := goal, crewName := crewName, agentSummaries := agentSummaries,
      recentNotes := recentNotes, maxSteps := maxSteps }
  let messages : List LlmChatMessage :=
    [{ role := .system, content := plannerSystemText },
     { role := .user, content := basePrompt }]
  match plannerLoopGo llm hook A A messages none none with
  | .error e => .error e
  | .ok (none, lastErr) => .error (plannerExhaustText A lastErr)
  | .ok (some d, _) => .ok (mkPlanOfDecision d)

/-! ### Parallel batch executor (`ParallelExecutor.ts`)

The JS event loop runs the coordination of the promise pool single-threadedly;
the embedding below sequentializes the pool in queue order (result order is
not observable through any property stated here beyond multiset counts). An
action (`AgentWork.run`) is a value of `Except String AgentWorkResult`: the
result record of a settled action, or the message of a raised error. -/

inductive WorkPhase where
  | planning : WorkPhase
  | execution : WorkPhase
  | reflection : WorkPhase
deriving DecidableEq, Repr

def workPhaseText : WorkPhase → String
  | .planning => "planning"
  | .execution => "execution"
  | .reflection => "reflection"

structure AgentWorkResult where
  agentId : String
  phase : WorkPhase
  success : Bool
  output : Option String
  errorMessage : Option String
  startedAt : Nat
  finishedAt : Nat
deriving DecidableEq, Repr

structure AgentWork where
  agentId : String
  phase : WorkPhase
  input : Option String
  label : Option String
  run : Except String AgentWorkResult
deriving Repr

structure ParallelBatchSummary where
  results : List AgentWorkResult
  succeeded : List AgentWorkResult
  failed : List AgentWorkResult
  durationMs : Nat
deriving DecidableEq, Repr

structure ParallelExecutorOptions where
  maxConcurrent : Nat
  onResult : Option (AgentWorkResult → Except String Unit)
  onStartBatch : Option (Nat → Except String Unit)
  onFinishBatch : Option (ParallelBatchSummary → Except String Unit)
  withCheckpointTag :
    Option (String → WorkPhase → Except String AgentWorkResult → Except String AgentWorkResult)

def runHook {α : Type} (h : Option (α → Except String Unit)) (a : α) : Except String Unit :=
  match h with
  | some f => f a
  | none => .ok ()

/-- `executeItem`: run the (optionally checkpoint-wrapped) action inside a
try/catch, converting a raised error into a failed result record. -/
def executeItem
    (withTag : Option (String → WorkPhase → Except String AgentWorkResult →
      Except String AgentWorkResult))
    (item : AgentWork) : AgentWorkResult :=
  let wrapped :=
    match withTag with
    | some w => w item.agentId item.phase item.run
    | none => item.run
  match wrapped with
  | .ok r =>
    { agentId := item.agentId, phase := item.phase, success := r.success,
      output := r.output, errorMessage := r.errorMessage, startedAt := 0, finishedAt := 0 }
  | .error e =>
    { agentId := item.agentId, phase := item.phase, success := false,
      output := none, errorMessage := some e, startedAt := 0, finishedAt := 0 }

/-- The promise-pool body of `runBatch`: each item is executed and its result
pushed; a rejecting `onResult` hook is caught by the chain's catch handler,
which pushes a second, failed result entry for the same item. -/
def processItems (opts : ParallelExecutorOptions) : List AgentWork → List AgentWorkResult
  | [] => []
  | item :: rest =>
    let res := executeItem opts.withCheckpointTag item
    match runHook opts.onResult res with
    | .ok _ => res :: processItems opts rest
    | .error e =>
      res ::
        { agentId := item.agentId, phase := item.phase, success := false,
          output := none, errorMessage := some e, startedAt := 0, finishedAt := 0 } ::
        processItems opts rest

/-- `ParallelExecutor.runBatch`. The `onStartBatch` and `onFinishBatch` hooks
are awaited with no surrounding try/catch: their raised errors reject the
batch promise. -/
def runBatch (opts : ParallelExecutorOptions) (workItems : List AgentWork) :
    Except String ParallelBatchSummary :=
  match runHook opts.onStartBatch workItems.length with
  | .error e => .error e
  | .ok _ =>
    let results := processItems opts workItems
    let summary : ParallelBatchSummary :=
      { results := results,
        succeeded := results.filter (fun r => r.success),
        failed := results.filter (fun r => !r.success),
        durationMs := 0 }
    match runHook opts.onFinishBatch summary with
    | .error e => .error e
    | .ok _ => .ok summary

/-! ### Checkpoint tagging (`CheckpointTagging.ts`) -/

def formatCheckpointTagText (agentId : String) (phase : WorkPhase) : String :=
  "[crew]" ++ "[agent=" ++ agentId ++ "]" ++ "[phase=" ++ workPhaseText phase ++ "]"

/-- `createCheckpointTagWrapper`: run the work, then best-effort commit a
tagged checkpoint; a commit failure is swallowed and never propagates. -/
def checkpointTagWrapper (tracker : Option (String → Except String (Option String))) :
    String → WorkPhase → Except String AgentWorkResult → Except String AgentWorkResult :=
  fun agentId phase fnResult =>
    match fnResult with
    | .error e => .error e
    | .ok v =>
      match tracker with
      | some commit =>
        match commit (formatCheckpointTagText agentId phase) with
        | _ => .ok v
      | none => .ok v

/-! ### Tool allowlist enforcement (`ToolAllowlist.ts`) -/

structure ToolInvocationContext where
  agentId : String
  phase : WorkPhase
  toolName : String
deriving DecidableEq, Repr

structure AgentToolPolicy where
  agentId : String
  allowedToolIds : Option (List String)
deriving DecidableEq, Repr

structure AllowlistDecision where
  allowed : Bool
  reason : Option String
deriving DecidableEq, Repr

/-- The enforcer's policy map is a JS `Map` built from the policy list: a
later entry for the same agent id overwrites an earlier one. -/
def lookupPolicy (policies : List AgentToolPolicy) (agentId : String) : Option AgentToolPolicy :=
  policies.reverse.find? (fun p => p.agentId == agentId)

/-- `ToolAllowlistEnforcer.check`. -/
def allowlistCheck (policies : List AgentToolPolicy) (ctx : ToolInvocationContext) :
    AllowlistDecision :=
  match lookupPolicy policies ctx.agentId with
  | none => { allowed := true, reason := none }
  | some policy =>
    let l := policy.allowedToolIds.getD []
    if l.length = 0 then { allowed := true, reason := none }
    else if ctx.toolName ∈ l then { allowed := true, reason := none }
    else
      { allowed := false,
        reason := some ("Tool \x27" ++ ctx.toolName ++ "\x27 not in allowlist for agent \x27" ++
          ctx.agentId ++ "\x27.") }

/-- `ToolAllowlistEnforcer.enforce`. -/
def allowlistEnforce (policies : List AgentToolPolicy) (ctx : ToolInvocationContext) :
    Except String Unit :=
  let decision := allowlistCheck policies ctx
  if decision.allowed then .ok ()
  else .error (decision.reason.getD "Tool invocation blocked by allowlist.")

structure PolicySourceAgent where
  id : String
  allowedToolIds : Option (List String)
deriving DecidableEq, Repr

/-- `buildPoliciesFromAgents`. -/
def buildPoliciesFromAgents (agents : List PolicySourceAgent) : List AgentToolPolicy :=
  agents.map (fun a =>
    { agentId := a.id,
      allowedToolIds :=
        match a.allowedToolIds with
        | some l => if l.length ≠ 0 then some l else none
        | none => none })

/-! ### Short-term memory (`ShortTermMemory.ts`)

The discriminated `thought`/`observation` union is embedded as one record
with a type tag and optional fields; `genId`'s timestamp-and-random id is
modelled by a per-ledger counter (the core never inspects ids). -/

inductive MemoryEntryType where
  | thought : MemoryEntryType
  | observation : MemoryEntryType
deriving DecidableEq, Repr

structure MemoryEntry where
  id : String
  ts : Nat
  type : MemoryEntryType
  content : String
  agentId : Option String
  phase : Option String
  toolId : Option String
  success : Option Bool
  dataSnippet : Option String
  errorType : Option String
deriving DecidableEq, Repr

structure ShortTermMemory where
  entries : List MemoryEntry
  maxEntries : Nat
  nextId : Nat
deriving DecidableEq, Repr

def emptyMemory : ShortTermMemory := { entries := [], maxEntries := 200, nextId := 0 }

/-- `pushEntry`: append, then drop the oldest entries beyond the capacity. -/
def pushEntry (m : ShortTermMemory) (e : MemoryEntry) : ShortTermMemory :=
  let es := m.entries ++ [e]
  { m with
    entries := if es.length > m.maxEntries then es.drop (es.length - m.maxEntries) else es,
    nextId := m.nextId + 1 }

def appendThought (m : ShortTermMemory) (content : String) : ShortTermMemory :=
  pushEntry m
    { id := "mem_" ++ natToDec m.nextId, ts := 0, type := .thought, content := content,
      agentId := none, phase := none, toolId := none, success := none,
      dataSnippet := none, errorType := none }

def appendObservation (m : ShortTermMemory) (content : String) (success : Option Bool) :
    ShortTermMemory :=
  pushEntry m
    { id := "mem_" ++ natToDec m.nextId, ts := 0, type := .observation, content := content,
      agentId := none, phase := none, toolId := none, success := success,
      dataSnippet := none, errorType := none }

/-! ### Plan DAG executor (`PlanDAGExecutor.ts`)

Plan steps are mutated in place in the source; the embedding represents the
plan's step array as a positional list and each mutation as a positional
update. The hook record threads an explicit state `σ` (the orchestrator wires
the short-term memory ledger through it); a hook raising rejects `run`. The
work factory's incidental in-place mutation of the step it receives (the
orchestrator assigns a default agent id) is purified as the first component
of its returned pair. -/

inductive StepEvent where
  | start : StepEvent
  | success : StepEvent
  | error : StepEvent
deriving DecidableEq, Repr

structure DagHooks (σ : Type) where
  onStepUpdate : Option (σ → PlanStep → StepEvent → Except String σ)
  onWaveStart : Option (σ → Nat → List PlanStep → Except String σ)
  onWaveComplete : Option (σ → Nat → List PlanStep → Except String σ)

def noDagHooks (σ : Type) : DagHooks σ :=
  { onStepUpdate := none, onWaveStart := none, onWaveComplete := none }

structure PlanDagRunResult where
  waves : Nat
  stepsExecuted : Nat
  failedSteps : List PlanStep
  durationMs : Nat
deriving DecidableEq, Repr

def runStepHook {σ : Type} (h : Option (σ → PlanStep → StepEvent → Except String σ))
    (hs : σ) (s : PlanStep) (e : StepEvent) : Except String σ :=
  match h with
  | some f => f hs s e
  | none => .ok hs

def runWaveHook {σ : Type} (h : Option (σ → Nat → List PlanStep → Except String σ))
    (hs : σ) (w : Nat) (steps : List PlanStep) : Except String σ :=
  match h with
  | some f => f hs w steps
  | none => .ok hs

/-- `stepIndex`: a map from step id to the step, last insertion winning; the
embedding stores the position of that step, reads going through the current
positional list (the source's map stores object references). -/
def stepIndexOf (steps : List PlanStep) (d : String) : Option Nat :=
  (List.range steps.length).foldl
    (fun acc p =>
      match steps[p]? with
      | some s => if s.id == d then some p else acc
      | none => acc)
    none

def isPendingStatus (st : Option StepStatus) : Bool :=
  match st with
  | some .pending => true
  | none => true
  | _ => false

def depDone (index : String → Option Nat) (steps : List PlanStep) (d : String) : Bool :=
  match index d with
  | some p =>
    match steps[p]? with
    | some t => match t.status with | some .done => true | _ => false
    | none => false
  | none => false

def isReady (index : String → Option Nat) (steps : List PlanStep) (s : PlanStep) : Bool :=
  isPendingStatus s.status &&
    (match s.dependsOn with
     | none => true
     | some l => l.all (depDone index steps))

def readyIdxs (index : String → Option Nat) (steps : List PlanStep) : List Nat :=
  (List.range steps.length).filter
    (fun p =>
      match steps[p]? with
      | some s => isReady index steps s
      | none => false)

/-- `s.parallelGroup || "__default"` (an empty-string label is falsy). -/
def groupKeyOf (s : PlanStep) : String :=
  match s.parallelGroup with
  | some g => if g = "" then "__default" else g
  | none => "__default"

def eraseDupsKeep : List String → List String → List String
  | [], _ => []
  | k :: rest, seen =>
    if k ∈ seen then eraseDupsKeep rest seen else k :: eraseDupsKeep rest (k :: seen)

def dagKeyAt (steps : List PlanStep) (p : Nat) : String :=
  match steps[p]? with
  | some s => groupKeyOf s
  | none => "__default"

/-- Ready positions grouped by parallel-group key in first-occurrence order
(the iteration order of the source's insertion-ordered `Map`). -/
def waveGroups (steps : List PlanStep) (idxs : List Nat) : List (List Nat) :=
  (eraseDupsKeep (idxs.map (dagKeyAt steps)) []).map
    (fun k => idxs.filter (fun p => dagKeyAt steps p == k))

def stepsAt (steps : List PlanStep) (idxs : List Nat) : List PlanStep :=
  idxs.filterMap (fun p => steps[p]?)

/-- Mark each step of a group running, emitting a start notification each. -/
def markRunning {σ : Type} (hooks : DagHooks σ) :
    List Nat → List PlanStep → σ → Except String (List PlanStep × σ)
  | [], steps, hs => .ok (steps, hs)
  | p :: ps, steps, hs =>
    match steps[p]? with
    | none => markRunning hooks ps steps hs
    | some s =>
      let s1 := { s with status := some .running }
      match runStepHook hooks.onStepUpdate hs s1 .start with
      | .error e => .error e
      | .ok hs1 => markRunning hooks ps (steps.set p s1) hs1

/-- `groupSteps.map((step) => buildWork(step))`, applying the factory's
purified in-place step mutation positionally. -/
def applyBuildWork (bw : PlanStep → PlanStep × AgentWork) :
    List Nat → List PlanStep → List PlanStep × List AgentWork
  | [], steps => (steps, [])
  | p :: ps, steps =>
    match steps[p]? with
    | none => applyBuildWork bw ps steps
    | some s =>
      let pr := bw s
      let (steps2, ws) := applyBuildWork bw ps (steps.set p pr.1)
      (steps2, pr.2 :: ws)

/-- Match a batch result back to the first group step with the same agent id
that is still running (or pending); a step with no agent id never matches. -/
def findMatchIdx (steps : List PlanStep) (idxs : List Nat) (aid : String) : Option Nat :=
  idxs.find? (fun p =>
    match steps[p]? with
    | some st =>
      (match st.agentId with
       | some a => a == aid
       | none => false) &&
      (match st.status with
       | some .running => true
       | some .pending => true
       | _ => false)
    | none => false)

def resultErrorText (r : AgentWorkResult) : String :=
  match r.errorMessage with
  | some m => if m = "" then "Unknown error" else m
  | none => "Unknown error"

/-- Transition matched steps to done/error per batch result, emitting the
corresponding lifecycle notification; unmatched results are skipped. -/
def applyResults {σ : Type} (hooks : DagHooks σ) (idxs : List Nat) :
    List AgentWorkResult → List PlanStep → σ → Nat →
    Except String (List PlanStep × σ × Nat)
  | [], steps, hs, executed => .ok (steps, hs, executed)
  | r :: rs, steps, hs, executed =>
    match findMatchIdx steps idxs r.agentId with
    | none => applyResults hooks idxs rs steps hs executed
    | some p =>
      match steps[p]? with
      | none => applyResults hooks idxs rs steps hs executed
      | some st =>
        let st1 :=
          if r.success then { st with status := some .done }
          else { st with status := some .error, errorMessage := some (resultErrorText r) }
        let ev := if r.success then StepEvent.success else StepEvent.error
        match runStepHook hooks.onStepUpdate hs st1 ev with
        | .error e => .error e
        | .ok hs1 => applyResults hooks idxs rs (steps.set p st1) hs1 (executed + 1)

/-- Process the groups of one wave sequentially: mark running, build work,
submit the batch, map results back. -/
def processGroups {σ : Type} (hooks : DagHooks σ) (pexecOpts : ParallelExecutorOptions)
    (bw : PlanStep → PlanStep × AgentWork) :
    List (List Nat) → List PlanStep → σ → Nat →
    Except String (List PlanStep × σ × Nat)
  | [], steps, hs, executed => .ok (steps, hs, executed)
  | g :: gs, steps, hs, executed =>
    match markRunning hooks g steps hs with
    | .error e => .error e
    | .ok (steps1, hs1) =>
      let (steps2, works) := applyBuildWork bw g steps1
      match runBatch pexecOpts works with
      | .error e => .error e
      | .ok summary =>
        match applyResults hooks g summary.results steps2 hs1 executed with
        | .error e => .error e
        | .ok (steps3, hs3, ex3) => processGroups hooks pexecOpts bw gs steps3 hs3 ex3

def isTerminalStatus (st : Option StepStatus) : Bool :=
  match st with
  | some .done => true
  | some .error => true
  | _ => false

/-- Deadlock marking: every step that is neither done nor error is marked
error with the fixed deadlock message (no step notification is emitted). -/
def markDeadlocked (steps : List PlanStep) : List PlanStep :=
  steps.map (fun s =>
    if isTerminalStatus s.status then s
    else { s with status := some .error,
                  errorMessage := some "Deadlock: dependencies unresolved" })

def mkDagResult (steps : List PlanStep) (waves executed : Nat) : PlanDagRunResult :=
  { waves := waves, stepsExecuted := executed,
    failedSteps := steps.filter (fun s => match s.status with | some .error => true | _ => false),
    durationMs := 0 }

/-- The wave loop of `PlanDAGExecutor.run`, with explicit fuel; `none` means
the fuel ran out before the loop reached its exit (the termination theorem
shows one unit of fuel per initially pending step plus one always suffices). -/
def dagLoop {σ : Type} (hooks : DagHooks σ) (pexecOpts : ParallelExecutorOptions)
    (bw : PlanStep → PlanStep × AgentWork) (index : String → Option Nat) :
    Nat → List PlanStep → σ → Nat → Nat →
    Option (Except String (List PlanStep × σ × PlanDagRunResult))
  | 0, _, _, _, _ => none
  | fuel + 1, steps, hs, waves, executed =>
    match readyIdxs index steps with
    | [] =>
      let anyRemaining := steps.any (fun s => !isTerminalStatus s.status)
      let steps2 := if anyRemaining then markDeadlocked steps else steps
      some (.ok (steps2, hs, mkDagResult steps2 waves executed))
    | r :: rs =>
      match runWaveHook hooks.onWaveStart hs waves (stepsAt steps (r :: rs)) with
      | .error e => some (.error e)
      | .ok hs1 =>
        match processGroups hooks pexecOpts bw (waveGroups steps (r :: rs)) steps hs1 executed with
        | .error e => some (.error e)
        | .ok (steps2, hs2, ex2) =>
          match runWaveHook hooks.onWaveComplete hs2 waves (stepsAt steps2 (r :: rs)) with
          | .error e => some (.error e)
          | .ok hs3 => dagLoop hooks pexecOpts bw index fuel steps2 hs3 (waves + 1) ex2

/-- Count of steps whose status reads as pending (explicitly pending or
still unset) — the loop measure. -/
def pendCount (steps : List PlanStep) : Nat :=
  steps.countP (fun s => isPendingStatus s.status)

/-- `PlanDAGExecutor.run` on a plan, returning the final positional steps,
the threaded hook state and the run metrics. -/
def dagRun {σ : Type} (hooks : DagHooks σ) (pexecOpts : ParallelExecutorOptions)
    (bw : PlanStep → PlanStep × AgentWork) (plan : Plan) (hs : σ) :
    Except String (List PlanStep × σ × PlanDagRunResult) :=
  match dagLoop hooks pexecOpts bw (stepIndexOf plan.steps)
      (pendCount plan.steps + 1) plan.steps hs 0 0 with
  | some r => r
  | none => .error "PlanDAGExecutor: wave loop fuel exhausted"

/-! ### Crew data model (shape of `@/shared/Crew` as consumed by this core) -/

structure CrewAgent where
  id : String
  name : String
  role : String
  enabled : Option Bool
  reflectionRole : Option Bool
  parallelGroup : Option String
  allowedToolIds : Option (List String)
deriving DecidableEq, Repr

structure ParallelPolicies where
  maxConcurrentAgents : Option Nat
deriving DecidableEq, Repr

structure TerminationPolicies where
  maxAgentLoops : Option Nat
  maxReflectionCycles : Option Nat
deriving DecidableEq, Repr

structure CrewExecutionPolicies where
  parallel : Option ParallelPolicies
  termination : Option TerminationPolicies
deriving DecidableEq, Repr

structure Crew where
  id : String
  name : String
  isDefault : Option Bool
  agents : List CrewAgent
  executionPolicies : Option CrewExecutionPolicies
deriving DecidableEq, Repr

/-- `a.enabled !== false && !a.reflectionRole`. -/
def isWorkAgent (a : CrewAgent) : Bool :=
  (match a.enabled with
   | some false => false
   | _ => true) &&
  (match a.reflectionRole with
   | some true => false
   | _ => true)

/-! ### Termination state and counters (`CrewOrchestrator.ts`) -/

inductive TerminationReason where
  | MAX_AGENT_LOOPS : TerminationReason
  | MAX_REFLECTION_CYCLES : TerminationReason
  | MANUAL_HUMAN_ABORT : TerminationReason
  | MODEL_SAYS_DONE : TerminationReason
  | POLICY_DENY : TerminationReason
deriving DecidableEq, Repr

structure TerminationState where
  agentLoopCounts : List (String × Nat)
  reflectionCycles : Nat
  terminated : Bool
  reason : Option TerminationReason
  terminationDetail : Option String
deriving DecidableEq, Repr

def initialTermination : TerminationState :=
  { agentLoopCounts := [], reflectionCycles := 0, terminated := false,
    reason := none, terminationDetail := none }

def lookupLoopCount (counts : List (String × Nat)) (agentId : String) : Nat :=
  match counts.find? (fun p => p.1 == agentId) with
  | some p => p.2
  | none => 0

def setLoopCount : List (String × Nat) → String → Nat → List (String × Nat)
  | [], agentId, n => [(agentId, n)]
  | (k, v) :: rest, agentId, n =>
    if k == agentId then (agentId, n) :: rest else (k, v) :: setLoopCount rest agentId n

/-- `setTerminated`: the latch sets the reason and detail only on the first
transition (a falsy — empty — detail string leaves the detail unchanged). -/
def setTerminated (ts : TerminationState) (reason : TerminationReason)
    (detail : Option String) : TerminationState :=
  if ts.terminated then ts
  else
    let detail2 :=
      match detail with
      | some d => if d = "" then ts.terminationDetail else some d
      | none => ts.terminationDetail
    { ts with terminated := true, reason := some reason, terminationDetail := detail2 }

/-- `incrementAgentLoop`: a falsy configured ceiling (absent or `0`) never
trips the latch. Returns the continue boolean and the updated state. -/
def incrementAgentLoop (policies : Option CrewExecutionPolicies)
    (ts : TerminationState) (agentId : String) : Bool × TerminationState :=
  let maxLoops := (policies.bind (fun p => p.termination)).bind (fun t => t.maxAgentLoops)
  if ts.terminated then (false, ts)
  else
    let n := lookupLoopCount ts.agentLoopCounts agentId + 1
    let ts1 := { ts with agentLoopCounts := setLoopCount ts.agentLoopCounts agentId n }
    match maxLoops with
    | some m =>
      if m ≠ 0 ∧ n > m then
        (false, setTerminated ts1 .MAX_AGENT_LOOPS
          (some ("agent " ++ agentId ++ " exceeded maxAgentLoops (" ++ natToDec m ++ ")")))
      else (true, ts1)
    | none => (true, ts1)

/-- `incrementReflectionCycle`. -/
def incrementReflectionCycle (policies : Option CrewExecutionPolicies)
    (ts : TerminationState) : Bool × TerminationState :=
  let maxReflections :=
    (policies.bind (fun p => p.termination)).bind (fun t => t.maxReflectionCycles)
  if ts.terminated then (false, ts)
  else
    let ts1 := { ts with reflectionCycles := ts.reflectionCycles + 1 }
    match maxReflections with
    | some m =>
      if m ≠ 0 ∧ ts1.reflectionCycles > m then
        (false, setTerminated ts1 .MAX_REFLECTION_CYCLES
          (some ("exceeded maxReflectionCycles (" ++ natToDec m ++ ")")))
      else (true, ts1)
    | none => (true, ts1)

/-! ### Orchestrator configuration, wiring and run (`CrewOrchestrator.ts`) -/

structure CrewOrchestratorConfig where
  llm : LlmFun
  crews : List Crew
  selectedCrewId : Option String
  checkpointTracker : Option (String → Except String (Option String))
  routeDecisionMaxAttempts : Option Nat
  onRouteDecisionAttempt : AttemptHook
  onParallelBatchComplete : Option (ParallelBatchSummary → Except String Unit)
  onPlanAttempt : AttemptHook
  onPlanGenerated : Option (Plan → String → Except String Unit)
  onPlanStepUpdate : Option (PlanStep → StepEvent → Except String Unit)
  onPlanWaveComplete : Option (Nat → List PlanStep → Except String Unit)

structure OrchestratorRunOptions where
  goal : String
  recentNotes : Option String
deriving DecidableEq, Repr

structure OrchestratorRunResult where
  strategy : RouteStrategy
  routeDecision : RouteDecision
  planGenerated : Bool
  plan : Option Plan
  parallelBatchesExecuted : Nat
  terminationEarly : Bool
  terminationReason : Option TerminationReason
  terminationDetail : Option String
  notes : Option String
deriving DecidableEq, Repr

structure OrchestratorRunOutcome where
  result : OrchestratorRunResult
  memory : ShortTermMemory
deriving DecidableEq, Repr

/-- `initializeCrewContext` crew resolution: selected entry, else entry
flagged default, else first available. -/
def resolveCrew (cfg : CrewOrchestratorConfig) : Option Crew :=
  ((cfg.crews.find? (fun c =>
      match cfg.selectedCrewId with
      | some sid => c.id == sid
      | none => false)).orElse
    (fun _ => cfg.crews.find? (fun c => c.isDefault == some true))).orElse
    (fun _ => cfg.crews.head?)

/-- The `ParallelExecutor` instance built by `initializeCrewContext`. -/
def orchestratorPexecOpts (cfg : CrewOrchestratorConfig) (crew : Crew) :
    ParallelExecutorOptions :=
  { maxConcurrent :=
      match (crew.executionPolicies.bind (fun p => p.parallel)).bind
          (fun p => p.maxConcurrentAgents) with
      | some m => if m > 0 then m else 1
      | none => 1,
    onResult := none,
    onStartBatch := none,
    onFinishBatch := cfg.onParallelBatchComplete,
    withCheckpointTag := some (checkpointTagWrapper cfg.checkpointTracker) }

/-- Effective route-decision attempt ceiling:
`this.cfg.routeDecisionMaxAttempts || 3` over the constructor default 3. -/
def effectiveRouteMaxAttempts (cfg : CrewOrchestratorConfig) : Nat :=
  let v := cfg.routeDecisionMaxAttempts.getD 3
  if v = 0 then 3 else v

def routeSystemText : String :=
  "You are an orchestration assistant optimizing multi-agent strategies."

def routeExhaustText (maxAttempts : Nat) (lastErr : Option String) : String :=
  "CrewOrchestrator: Failed to parse route decision after " ++ natToDec maxAttempts ++
    " attempts. Last error: " ++ lastErr.getD "undefined"

structure RouteAcqOutcome where
  outcome : Except String RouteDecision
  calls : Nat
  finalMessages : List LlmChatMessage

/-- The attempt loop of `acquireRouteDecision`. The success-path telemetry
hook is awaited inside the try block, so its raised error is caught and the
loop retries; the failure-path hook call sits inside the catch, so its raised
error rejects the acquisition. `calls` counts completed model calls. -/
def routeLoopGo (llm : LlmFun) (hook : AttemptHook) (maxAttempts : Nat) :
    Nat → List LlmChatMessage → Option String → Nat → RouteAcqOutcome
  | 0, msgs, lastErr, calls =>
    { outcome := .error (routeExhaustText maxAttempts lastErr),
      calls := calls, finalMessages := msgs }
  | left + 1, msgs, _lastErr, calls =>
    let attempt := maxAttempts - left
    match llm msgs with
    | .error e => { outcome := .error e, calls := calls + 1, finalMessages := msgs }
    | .ok raw =>
      match parseRouteDecision raw with
      | .ok d =>
        match runAttemptHook hook raw none attempt with
        | .ok _ => { outcome := .ok d, calls := calls + 1, finalMessages := msgs }
        | .error he =>
          match runAttemptHook hook raw (some he) attempt with
          | .error he2 =>
            { outcome := .error he2, calls := calls + 1, finalMessages := msgs }
          | .ok _ =>
            routeLoopGo llm hook maxAttempts left
              (if left = 0 then msgs
               else msgs ++ [{ role := .assistant, content := raw },
                             { role := .user, content := buildRepairInstruction he }])
              (some he) (calls + 1)
      | .error pe =>
        match runAttemptHook hook raw (some pe) attempt with
        | .error he2 =>
          { outcome := .error he2, calls := calls + 1, finalMessages := msgs }
        | .ok _ =>
          routeLoopGo llm hook maxAttempts left
            (if left = 0 then msgs
             else msgs ++ [{ role := .assistant, content := raw },
                           { role := .user, content := buildRepairInstruction pe }])
            (some pe) (calls + 1)

def routeInitMessages (crew : Option Crew) (options : OrchestratorRunOptions) :
    List LlmChatMessage :=
  let agentsSummary :=
    match crew with
    | some c => c.agents.map (fun a => (a.id, a.role))
    | none => []
  [{ role := .system, content := routeSystemText },
   { role := .user, content := buildRouteDecisionPrompt
      { goal := options.goal,
        crewName := crew.map (fun c => c.name),
        agentSummaries := some agentsSummary,
        recentNotes := options.recentNotes } }]

/-- `acquireRouteDecision` as invoked from `run`. -/
def acquireRouteDecision (cfg : CrewOrchestratorConfig) (options : OrchestratorRunOptions) :
    RouteAcqOutcome :=
  let a := effectiveRouteMaxAttempts cfg
  routeLoopGo cfg.llm cfg.onRouteDecisionAttempt a a
    (routeInitMessages (resolveCrew cfg) options) none 0

/-- `generateSkeletonPlan`: one pending step per enabled, non-reflection
agent, no dependencies, description derived from the agent role and goal. -/
def generateSkeletonPlan (crew : Option Crew) (goal : String) : Plan :=
  match crew with
  | none => { id := "plan_none", createdTs := 0, rationale := some "No crew", steps := [] }
  | some c =>
    { id := "plan_0", createdTs := 0,
      rationale := some "Skeleton auto-generated plan (no real planner yet).",
      steps := skeletonSteps 0 (c.agents.filter isWorkAgent) goal }
where skeletonSteps : Nat → List CrewAgent → String → List PlanStep
  | _, [], _ => []
  | idx, a :: rest, goal =>
    { id := "step_" ++ natToDec (idx + 1) ++ "_" ++ a.id,
      description := "Have agent \x27" ++ (if a.role = "" then a.id else a.role) ++
        "\x27 contribute toward goal: " ++ goal,
      agentId := some a.id,
      parallelGroup := a.parallelGroup,
      dependsOn := some [],
      status := some .pending,
      errorMessage := none } :: skeletonSteps (idx + 1) rest goal

/-- `executeDirectExecution`: one flat placeholder batch over the enabled,
non-reflection agents. -/
def executeDirectExecution (cfg : CrewOrchestratorConfig) (crew : Crew)
    (ts : TerminationState) (mem : ShortTermMemory) :
    Except String (Nat × ShortTermMemory) :=
  if ts.terminated then .ok (0, mem)
  else
    let workAgents := crew.agents.filter isWorkAgent
    if workAgents.length = 0 then .ok (0, mem)
    else
      let fakeWork : List AgentWork := workAgents.map (fun agent =>
        { agentId := agent.id, phase := .execution, input := none,
          label := some "skeleton-step",
          run := .ok { agentId := agent.id, phase := .execution, success := true,
                       output := some "placeholder", errorMessage := none,
                       startedAt := 0, finishedAt := 0 } })
      match runBatch (orchestratorPexecOpts cfg crew) fakeWork with
      | .error e => .error e
      | .ok _ =>
        let mem1 := appendObservation mem
          ("Executed direct batch with " ++ natToDec fakeWork.length ++ " placeholder steps")
          (some true)
        .ok (1, mem1)

/-- The DAG hooks wired by `executePlanThenParallel`: step and wave events
append to the short-term memory and forward to the caller-supplied
telemetry hooks. -/
def orchestratorDagHooks (cfg : CrewOrchestratorConfig) : DagHooks ShortTermMemory :=
  { onStepUpdate := some (fun mem step event =>
      let mem1 :=
        match event with
        | .start => appendThought mem ("Step " ++ step.id ++ " started")
        | .success =>
          appendObservation mem ("Step " ++ step.id ++ " completed: " ++ step.description)
            (some true)
        | .error =>
          appendObservation mem
            ("Step " ++ step.id ++ " failed: " ++ (step.errorMessage.getD "undefined"))
            (some false)
      match cfg.onPlanStepUpdate with
      | some h => (h step event).map (fun _ => mem1)
      | none => .ok mem1),
    onWaveStart := none,
    onWaveComplete := some (fun mem waveIndex steps =>
      let after := fun (mem2 : ShortTermMemory) =>
        appendThought mem2
          ("Wave " ++ natToDec waveIndex ++ " complete (" ++ natToDec steps.length ++ " steps).")
      match cfg.onPlanWaveComplete with
      | some h => (h waveIndex steps).map (fun _ => after mem)
      | none => .ok (after mem)) }

/-- The work factory of `executePlanThenParallel`: a step lacking a (truthy)
agent id is assigned the default agent in place, and the built work's action
is the always-succeeding placeholder. -/
def orchestratorBuildWork (defaultAgent : Option CrewAgent) (step : PlanStep) :
    PlanStep × AgentWork :=
  let hasAgent := match step.agentId with | some a => !(a = "") | none => false
  let step1 :=
    match defaultAgent with
    | some da => if hasAgent then step else { step with agentId := some da.id }
    | none => step
  let agentId := match step1.agentId with | some a => if a = "" then "unassigned" else a | none => "unassigned"
  (step1,
   { agentId := agentId, phase := .execution, input := none,
     label := some step1.description,
     run := .ok { agentId := agentId, phase := .execution, success := true,
                  output := some "planned-exec", errorMessage := none,
                  startedAt := 0, finishedAt := 0 } })

def countStatus (steps : List PlanStep) (st : StepStatus) : Nat :=
  steps.countP (fun s => s.status == some st)

/-- `executePlanThenParallel`: run the plan through the DAG executor and
append the execution summary. Returns the wave count, the plan as mutated by
execution, and the ledger. -/
def executePlanThenParallel (cfg : CrewOrchestratorConfig) (crew : Crew)
    (ts : TerminationState) (mem : ShortTermMemory) (plan : Plan) :
    Except String (Nat × Plan × ShortTermMemory) :=
  if ts.terminated then .ok (0, plan, mem)
  else if plan.steps.length = 0 then .ok (0, plan, mem)
  else
    let defaultAgent := crew.agents.find? isWorkAgent
    match dagRun (orchestratorDagHooks cfg) (orchestratorPexecOpts cfg crew)
        (orchestratorBuildWork defaultAgent) plan mem with
    | .error e => .error e
    | .ok (finalSteps, mem2, result) =>
      let plan2 := { plan with steps := finalSteps }
      let mem3 := appendThought mem2
        ("Plan execution summary: " ++ natToDec (countStatus finalSteps .done) ++ " done, " ++
          natToDec (countStatus finalSteps .error) ++ " error, " ++
          natToDec result.waves ++ " waves.")
      .ok (result.waves, plan2, mem3)

def runNotesText : String := "Skeleton execution path complete (no actual agent steps yet)."

def mkRunOutcome (routeDecision : RouteDecision) (planGenerated : Bool) (plan : Option Plan)
    (waves : Nat) (ts : TerminationState) (mem : ShortTermMemory) : OrchestratorRunOutcome :=
  { result :=
      { strategy := routeDecision.strategy,
        routeDecision := routeDecision,
        planGenerated := planGenerated,
        plan := plan,
        parallelBatchesExecuted := waves,
        terminationEarly := ts.terminated,
        terminationReason := if ts.terminated then ts.reason else none,
        terminationDetail := if ts.terminated then ts.terminationDetail else none,
        notes := some runNotesText },
    memory := mem }

def noCrewText : String := "CrewOrchestrator: No crew available in global state."

def runPlanGeneratedHook (cfg : CrewOrchestratorConfig) (p : Plan) (via : String) :
    Except String Unit :=
  match cfg.onPlanGenerated with
  | some h => h p via
  | none => .ok ()

/-- The try-block of the plan_then_parallel branch: planner invocation
followed by the planner-path `onPlanGenerated` hook — either raising is
caught and triggers the skeleton fallback. -/
def plannerPhaseTry (cfg : CrewOrchestratorConfig) (crew : Crew)
    (options : OrchestratorRunOptions) : Except String Plan :=
  let agentSummaries := crew.agents.map (fun a =>
    (a.id, if a.role = "" then a.id else a.role, a.parallelGroup))
  match invokePlanner cfg.llm cfg.onPlanAttempt options.goal options.recentNotes
      (some crew.name) agentSummaries none none with
  | .error e => .error e
  | .ok p =>
    match runPlanGeneratedHook cfg p "planner" with
    | .error e => .error e
    | .ok _ => .ok p

/-- Plan acquisition of the plan_then_parallel branch including the skeleton
fallback and the memory appends of both paths. -/
def plannerPhase (cfg : CrewOrchestratorConfig) (crew : Crew)
    (options : OrchestratorRunOptions) : Except String (Plan × ShortTermMemory) :=
  match plannerPhaseTry cfg crew options with
  | .ok p =>
    let m := appendThought emptyMemory
      ("Planner produced " ++ natToDec p.steps.length ++ " steps.")
    let m :=
      match p.rationale with
      | some r => if r = "" then m else appendThought m ("Plan rationale: " ++ jsTake r 200)
      | none => m
    .ok (p, m)
  | .error _ =>
    let p := generateSkeletonPlan (some crew) options.goal
    match runPlanGeneratedHook cfg p "skeleton" with
    | .error e => .error e
    | .ok _ =>
      let m :=
        match p.rationale with
        | some r =>
          if r = "" then emptyMemory
          else appendThought emptyMemory ("Fallback plan rationale: " ++ jsTake r 200)
        | none => emptyMemory
      let m := appendObservation m "Planner failed, using skeleton plan fallback" (some false)
      .ok (p, m)

/-- `CrewOrchestrator.run`, for an orchestrator whose termination state is
`ts` at entry (the run itself never increments the counters; a latched state
only short-circuits dispatch). -/
def runOrchestrator (cfg : CrewOrchestratorConfig) (options : OrchestratorRunOptions)
    (ts : TerminationState) : Except String OrchestratorRunOutcome :=
  match resolveCrew cfg with
  | none => .error noCrewText
  | some crew =>
    match (acquireRouteDecision cfg options).outcome with
    | .error e => .error e
    | .ok routeDecision =>
      match routeDecision.strategy with
      | .plan_then_parallel =>
        match plannerPhase cfg crew options with
        | .error e => .error e
        | .ok (plan, mem1) =>
          match executePlanThenParallel cfg crew ts mem1 plan with
          | .error e => .error e
          | .ok (waves, plan2, mem2) =>
            .ok (mkRunOutcome routeDecision true (some plan2) waves ts mem2)
      | .direct_execution =>
        match executeDirectExecution cfg crew ts emptyMemory with
        | .error e => .error e
        | .ok (waves, mem2) =>
          .ok (mkRunOutcome routeDecision false none waves ts mem2)

/-! ### Concrete instances used by witnesses and counterexamples, and
proof-support iteration combinators -/

def c7Policies : List AgentToolPolicy := [{ agentId := "a", allowedToolIds := some ["x"] }]

def c7PoliciesEmpty : List AgentToolPolicy := [{ agentId := "a", allowedToolIds := some [] }]

def c7CtxY : ToolInvocationContext := { agentId := "a", phase := .execution, toolName := "y" }

def c7CtxX : ToolInvocationContext := { agentId := "a", phase := .execution, toolName := "x" }

def c9State : TerminationState :=
  { agentLoopCounts := [("a", 2)], reflectionCycles := 1, terminated := true,
    reason := some .MAX_AGENT_LOOPS, terminationDetail := some "d" }

/-- Iterated calls of `incrementAgentLoop` for one agent (proof-support
combinator over the source function). -/
def iterAgentLoop (policies : Option CrewExecutionPolicies) (agentId : String) :
    Nat → TerminationState → TerminationState
  | 0, ts => ts
  | n + 1, ts => iterAgentLoop policies agentId n (incrementAgentLoop policies ts agentId).2

/-- Iterated calls of `incrementReflectionCycle` (proof-support combinator). -/
def iterReflection (policies : Option CrewExecutionPolicies) :
    Nat → TerminationState → TerminationState
  | 0, ts => ts
  | n + 1, ts => iterReflection policies n (incrementReflectionCycle policies ts).2

def configuredMaxAgentLoops (policies : Option CrewExecutionPolicies) : Option Nat :=
  (policies.bind (fun p => p.termination)).bind (fun t => t.maxAgentLoops)

def configuredMaxReflectionCycles (policies : Option CrewExecutionPolicies) : Option Nat :=
  (policies.bind (fun p => p.termination)).bind (fun t => t.maxReflectionCycles)

def c10Policies : Option CrewExecutionPolicies :=
  some { parallel := none,
         termination := some { maxAgentLoops := some 0, maxReflectionCycles := none } }

def c2FailItem : AgentWork :=
  { agentId := "a", phase := .execution, input := none, label := none,
    run := .error "action raised" }

def c2OkItem : AgentWork :=
  { agentId := "a", phase := .execution, input := none, label := none,
    run := .ok { agentId := "a", phase := .execution, success := true, output := none,
                 errorMessage := none, startedAt := 0, finishedAt := 0 } }

def c2PlainOpts : ParallelExecutorOptions :=
  { maxConcurrent := 1, onResult := none, onStartBatch := none, onFinishBatch := none,
    withCheckpointTag := none }

def c2BadStartOpts : ParallelExecutorOptions :=
  { maxConcurrent := 2, onResult := none, onStartBatch := some (fun _ => .error "hook boom"),
    onFinishBatch := none, withCheckpointTag := none }

def c2BadResultOpts : ParallelExecutorOptions :=
  { maxConcurrent := 2, onResult := some (fun _ => .error "res boom"),
    onStartBatch := none, onFinishBatch := none, withCheckpointTag := none }

def stepIdAt (steps : List RawPlannedStep) (i : Nat) : Option String :=
  (steps[i]?).bind (fun s => s.id)

/-- Computable side condition of the amended C1 claim: no explicitly
supplied raw step id equals the positional sequential id of a strictly later
position. -/
def noPositionalClash (steps : List RawPlannedStep) : Bool :=
  (List.range steps.length).all (fun i =>
    (List.range steps.length).all (fun j =>
      if i < j then !(stepIdAt steps i == some (posId (j + 1))) else true))

def c1Raw : String :=
  "\x7b\"rationale\":\"ok\",\"steps\":[\x7b\"id\":\"s2\",\"description\":\"a\"\x7d,\x7b\"id\":\"s2\",\"description\":\"b\"\x7d]\x7d"

def c1CollisionSteps : List RawPlannedStep :=
  [{ id := some "s2", description := "a", agentId := none, parallelGroup := none,
     dependsOn := none },
   { id := some "s2", description := "b", agentId := none, parallelGroup := none,
     dependsOn := none }]

def c1DemoSteps : List RawPlannedStep :=
  [{ id := some "s1", description := "a", agentId := none, parallelGroup := none,
     dependsOn := none },
   { id := some "s1", description := "b", agentId := none, parallelGroup := none,
     dependsOn := none }]

deriving instance DecidableEq for Except

/-- The work factory used by the repository's own PlanDAGExecutor tests:
`agentId := step.agentId || step.id`, an always-succeeding action, and no
step mutation. -/
def c5TestWork (step : PlanStep) : PlanStep × AgentWork :=
  let aid := match step.agentId with | some a => if a = "" then step.id else a | none => step.id
  (step,
   { agentId := aid, phase := .execution, input := none, label := none,
     run := .ok { agentId := aid, phase := .execution, success := true, output := some "done",
                  errorMessage := none, startedAt := 0, finishedAt := 0 } })

def c5Pexec : ParallelExecutorOptions :=
  { maxConcurrent := 2, onResult := none, onStartBatch := none, onFinishBatch := none,
    withCheckpointTag := none }

def c5Step (id : String) (deps : List String) : PlanStep :=
  { id := id, description := "Step " ++ id, agentId := none, parallelGroup := none,
    dependsOn := some deps, status := some .pending, errorMessage := none }

/-- The deadlock-test plan of the repository's own test suite: `s1` has no
dependencies, `s2` depends on the nonexistent `sX`. -/
def c5Plan : Plan :=
  { id := "p3", createdTs := 0, rationale := some "deadlock",
    steps := [c5Step "s1" [], c5Step "s2" ["sX"]] }

/-- Proof-support relation: positions only move out of the pending reading
(no operation of the wave body writes a pending status), lengths fixed. -/
def PendMono (steps stepsTwo : List PlanStep) : Prop :=
  stepsTwo.length = steps.length ∧
  ∀ (q : Nat) (s' : PlanStep), stepsTwo[q]? = some s' → isPendingStatus s'.status = true →
    ∃ s, steps[q]? = some s ∧ isPendingStatus s.status = true

/-- Proof-support relation: statuses pointwise unchanged, lengths fixed
(the shape of the build-work pass under a status-preserving factory). -/
def StatusEq (steps stepsTwo : List PlanStep) : Prop :=
  stepsTwo.length = steps.length ∧
  ∀ (q : Nat) (s' : PlanStep), stepsTwo[q]? = some s' → ∃ s, steps[q]? = some s ∧ s'.status = s.status

/-- A cyclic two-step plan (C4 witness input): termination despite the cycle. -/
def c4CyclicPlan : Plan :=
  { id := "pc", createdTs := 0, rationale := none,
    steps := [c5Step "s1" ["s2"], c5Step "s2" ["s1"]] }

def c6RouteOkText : String :=
  "\x7b\"strategy\":\"direct_execution\",\"rationale\":\"quick\"\x7d"

def c6LlmOk : LlmFun := fun _ => .ok c6RouteOkText

def c6LlmBad : LlmFun := fun _ => .ok "nope"

def c3Agent : CrewAgent :=
  { id := "workerA", name := "Worker A", role := "General worker", enabled := some true,
    reflectionRole := none, parallelGroup := some "workers", allowedToolIds := none }

def c3Crew : Crew :=
  { id := "crew1", name := "Test Crew", isDefault := none, agents := [c3Agent],
    executionPolicies := none }

/-- A configuration whose batch-completion telemetry hook raises. -/
def c3BadCfg : CrewOrchestratorConfig :=
  { llm := c6LlmOk, crews := [c3Crew], selectedCrewId := some "crew1",
    checkpointTracker := none, routeDecisionMaxAttempts := none,
    onRouteDecisionAttempt := none,
    onParallelBatchComplete := some (fun _ => .error "hookboom"),
    onPlanAttempt := none, onPlanGenerated := none, onPlanStepUpdate := none,
    onPlanWaveComplete := none }

/-- The same configuration with every hook absent. -/
def c3GoodCfg : CrewOrchestratorConfig :=
  { c3BadCfg with onParallelBatchComplete := none }

def c3Opts : OrchestratorRunOptions := { goal := "Build feature X", recentNotes := none }

/-- Proof-support relation: step identity fields (id, description,
dependency list) pointwise unchanged, lengths fixed — execution only rewrites
status, error message and agent assignment. -/
def ShapeEq (steps stepsTwo : List PlanStep) : Prop :=
  stepsTwo.length = steps.length ∧
  ∀ (q : Nat) (s' : PlanStep), stepsTwo[q]? = some s' →
    ∃ s, steps[q]? = some s ∧ s'.id = s.id ∧ s'.description = s.description ∧
      s'.dependsOn = s.dependsOn

def plannerFailObsText : String := "Planner failed, using skeleton plan fallback"

def skeletonRationaleText : String := "Skeleton auto-generated plan (no real planner yet)."

def hasPlannerFailObs (m : ShortTermMemory) : Bool :=
  m.entries.any (fun (e : MemoryEntry) =>
    e.type == MemoryEntryType.observation && e.content == plannerFailObsText &&
      e.success == some false)

/-- Ledger invariant carried through execution: the fallback observation is
present unless the 200-entry cap has been reached. -/
def MemLedgerInv (m : ShortTermMemory) : Prop :=
  m.maxEntries = 200 ∧ m.entries.length ≤ 200 ∧
    (hasPlannerFailObs m = true ∨ m.entries.length = 200)

def c8RouteText : String :=
  "\x7b\"strategy\":\"plan_then_parallel\",\"rationale\":\"Need planning\"\x7d"

/-- The test suite\x27s two-phase model stub, keyed on the system message:
valid route decision for the route prompt, garbage for planner prompts. -/
def c8Llm : LlmFun := fun msgs =>
  match msgs with
  | m :: _ => if m.content == routeSystemText then .ok c8RouteText
      else .ok "garbled planner output"
  | [] => .ok "garbled planner output"

def c8Cfg : CrewOrchestratorConfig :=
  { c3GoodCfg with llm := c8Llm }

/-! # Theorems -/

theorem natToDecAux_append (n : Nat) :
    ∀ fuel acc, n < fuel → natToDecAux fuel n acc = natToDecAux fuel n [] ++ acc := by
  induction n using Nat.strong_induction_on with
  | _ n ih =>
    intro fuel acc hf
    match fuel with
    | g + 1 =>
      by_cases hlt : n < 10
      · simp [natToDecAux, hlt]
      · have hdiv : n / 10 < n := Nat.div_lt_self (by omega) (by omega)
        have hg : n / 10 < g := by omega
        simp only [natToDecAux, if_neg hlt]
        rw [ih (n / 10) hdiv g _ hg, ih (n / 10) hdiv g [digitCh (n % 10)] hg]
        simp

theorem decFold_append (xs : List Char) : ∀ a ys, decFold a (xs ++ ys) = decFold (decFold a xs) ys := by
  induction xs with
  | nil => intro a ys; rfl
  | cons c cs ih =>
    intro a ys
    show decFold (a * 10 + (c.toNat - 48)) (cs ++ ys) = _
    rw [ih]
    rfl

theorem toNat_digitCh (d : Nat) (hd : d < 10) : (digitCh d).toNat - 48 = d := by
  interval_cases d <;> decide

theorem decFold_natToDec (n : Nat) :
    ∀ fuel a, n < fuel → ∃ k, 0 < k ∧ decFold a (natToDecAux fuel n []) = a * 10 ^ k + n := by
  induction n using Nat.strong_induction_on with
  | _ n ih =>
    intro fuel a hf
    match fuel with
    | g + 1 =>
      by_cases hlt : n < 10
      · refine ⟨1, by omega, ?_⟩
        have h1 : natToDecAux (g + 1) n [] = [digitCh n] := by
          simp [natToDecAux, hlt]
        rw [h1]
        show a * 10 + ((digitCh n).toNat - 48) = a * 10 ^ 1 + n
        rw [toNat_digitCh n hlt]
        ring
      · have hdiv : n / 10 < n := Nat.div_lt_self (by omega) (by omega)
        have hg : n / 10 < g := by omega
        have h1 : natToDecAux (g + 1) n [] = natToDecAux g (n / 10) [] ++ [digitCh (n % 10)] := by
          simp only [natToDecAux, if_neg hlt]
          exact natToDecAux_append (n / 10) g _ hg
        rw [h1, decFold_append]
        obtain ⟨k, hk, hv⟩ := ih (n / 10) hdiv g a hg
        refine ⟨k + 1, by omega, ?_⟩
        rw [hv]
        show (a * 10 ^ k + n / 10) * 10 + ((digitCh (n % 10)).toNat - 48) = a * 10 ^ (k + 1) + n
        rw [toNat_digitCh (n % 10) (Nat.mod_lt _ (by omega))]
        have := Nat.div_add_mod n 10
        ring_nf
        omega

theorem natToDec_inj : Function.Injective natToDec := by
  intro m n h
  have hdata : natToDecAux (m + 1) m [] = natToDecAux (n + 1) n [] := by
    have := congrArg String.data h
    simpa [natToDec] using this
  obtain ⟨km, hkm, hm⟩ := decFold_natToDec m (m + 1) 0 (by omega)
  obtain ⟨kn, hkn, hn⟩ := decFold_natToDec n (n + 1) 0 (by omega)
  rw [hdata] at hm
  rw [hm] at hn
  omega

/-! ### JS-style string helpers -/

/-- C7: `ToolAllowlistEnforcer.check` allows an agent with no policy record or
an absent/empty allowlist; with a non-empty list, it allows exactly the listed
tool names, and every denial reason names both the tool and the agent. -/
theorem toolAllowlist_check_spec (policies : List AgentToolPolicy)
    (ctx : ToolInvocationContext) :
    (lookupPolicy policies ctx.agentId = none →
      allowlistCheck policies ctx = { allowed := true, reason := none }) ∧
    (∀ pol, lookupPolicy policies ctx.agentId = some pol →
      (pol.allowedToolIds = none ∨ pol.allowedToolIds = some []) →
      allowlistCheck policies ctx = { allowed := true, reason := none }) ∧
    (∀ pol l, lookupPolicy policies ctx.agentId = some pol →
      pol.allowedToolIds = some l → l ≠ [] →
      ((allowlistCheck policies ctx).allowed = true ↔ ctx.toolName ∈ l)) ∧
    ((allowlistCheck policies ctx).allowed = false →
      (allowlistCheck policies ctx).reason =
        some ("Tool \x27" ++ ctx.toolName ++ "\x27 not in allowlist for agent \x27" ++
          ctx.agentId ++ "\x27.")) := by
  refine ⟨?_, ?_, ?_, ?_⟩
  · intro h
    simp [allowlistCheck, h]
  · intro pol hpol hl
    rcases hl with hl | hl <;> simp [allowlistCheck, hpol, hl]
  · intro pol l hpol hl hne
    have hlen : l.length ≠ 0 := fun h0 => hne (List.length_eq_zero.mp h0)
    by_cases hmem : ctx.toolName ∈ l
    · simp [allowlistCheck, hpol, hl, hlen, hmem]
    · simp [allowlistCheck, hpol, hl, hlen, hmem]
  · intro hfalse
    cases hpol : lookupPolicy policies ctx.agentId with
    | none => simp [allowlistCheck, hpol] at hfalse
    | some pol =>
      by_cases hlen : (pol.allowedToolIds.getD []).length = 0
      · simp [allowlistCheck, hpol, hlen] at hfalse
      · by_cases hmem : ctx.toolName ∈ pol.allowedToolIds.getD []
        · simp [allowlistCheck, hpol, hlen, hmem] at hfalse
        · simp [allowlistCheck, hpol, hlen, hmem]

/-- C7 witness: the spec's concrete cases (empty list allows any tool; the
list `[x]` denies `y` with a reason naming tool and agent, and allows `x`). -/
theorem toolAllowlist_check_spec_witness :
    allowlistCheck c7PoliciesEmpty c7CtxY = { allowed := true, reason := none } ∧
    ((allowlistCheck c7Policies c7CtxX).allowed = true ↔ "x" ∈ ["x"]) ∧
    (allowlistCheck c7Policies c7CtxY).allowed = false ∧
    (allowlistCheck c7Policies c7CtxY).reason =
      some ("Tool \x27y\x27 not in allowlist for agent \x27a\x27.") := by
  refine ⟨?_, ?_, ?_, ?_⟩
  · exact (toolAllowlist_check_spec c7PoliciesEmpty c7CtxY).2.1
      { agentId := "a", allowedToolIds := some [] } (by decide) (Or.inr rfl)
  · exact (toolAllowlist_check_spec c7Policies c7CtxX).2.2.1
      { agentId := "a", allowedToolIds := some ["x"] } ["x"] (by decide) rfl (by decide)
  · decide
  · exact (toolAllowlist_check_spec c7Policies c7CtxY).2.2.2 (by decide)

/-! ## C9 — the termination latch is monotone -/

/-- C9: once the termination state has latched, `incrementAgentLoop` and
`incrementReflectionCycle` return `false` and leave the whole state (including
reason and detail) unchanged, and `setTerminated` is the identity — the first
recorded reason wins and the state never un-terminates. -/
theorem termination_latch_monotone (policies : Option CrewExecutionPolicies)
    (ts : TerminationState) (agentId : String) (reason : TerminationReason)
    (detail : Option String) (h : ts.terminated = true) :
    incrementAgentLoop policies ts agentId = (false, ts) ∧
    incrementReflectionCycle policies ts = (false, ts) ∧
    setTerminated ts reason detail = ts := by
  unfold incrementAgentLoop incrementReflectionCycle setTerminated
  simp [h]

/-- C9 witness. -/
theorem termination_latch_monotone_witness :
    incrementAgentLoop none c9State "a" = (false, c9State) ∧
    incrementReflectionCycle none c9State = (false, c9State) ∧
    setTerminated c9State .POLICY_DENY (some "other") = c9State :=
  termination_latch_monotone none c9State "a" .POLICY_DENY (some "other") rfl

/-! ## C10 — an absent or zero ceiling means unlimited -/

theorem incrementAgentLoop_unlimited (policies : Option CrewExecutionPolicies)
    (ts : TerminationState) (agentId : String)
    (hml : configuredMaxAgentLoops policies = none ∨ configuredMaxAgentLoops policies = some 0)
    (hts : ts.terminated = false) :
    (incrementAgentLoop policies ts agentId).1 = true ∧
    (incrementAgentLoop policies ts agentId).2.terminated = false ∧
    (incrementAgentLoop policies ts agentId).2.reason = ts.reason ∧
    (incrementAgentLoop policies ts agentId).2.terminationDetail = ts.terminationDetail := by
  unfold incrementAgentLoop
  unfold configuredMaxAgentLoops at hml
  rcases hml with hml | hml <;> simp [hml, hts]

theorem incrementReflectionCycle_unlimited (policies : Option CrewExecutionPolicies)
    (ts : TerminationState)
    (hml : configuredMaxReflectionCycles policies = none ∨
      configuredMaxReflectionCycles policies = some 0)
    (hts : ts.terminated = false) :
    (incrementReflectionCycle policies ts).1 = true ∧
    (incrementReflectionCycle policies ts).2.terminated = false ∧
    (incrementReflectionCycle policies ts).2.reason = ts.reason ∧
    (incrementReflectionCycle policies ts).2.terminationDetail = ts.terminationDetail := by
  unfold incrementReflectionCycle
  unfold configuredMaxReflectionCycles at hml
  rcases hml with hml | hml <;> simp [hml, hts]

theorem iterAgentLoop_unlimited (policies : Option CrewExecutionPolicies) (agentId : String)
    (hml : configuredMaxAgentLoops policies = none ∨ configuredMaxAgentLoops policies = some 0) :
    ∀ (n : Nat) (ts : TerminationState), ts.terminated = false →
      (iterAgentLoop policies agentId n ts).terminated = false ∧
      (iterAgentLoop policies agentId n ts).reason = ts.reason ∧
      (iterAgentLoop policies agentId n ts).terminationDetail = ts.terminationDetail := by
  intro n
  induction n with
  | zero => intro ts hts; exact ⟨hts, rfl, rfl⟩
  | succ m ih =>
    intro ts hts
    obtain ⟨h1, h2, h3, h4⟩ := incrementAgentLoop_unlimited policies ts agentId hml hts
    obtain ⟨g1, g2, g3⟩ := ih (incrementAgentLoop policies ts agentId).2 h2
    refine ⟨?_, ?_, ?_⟩ <;> simp only [iterAgentLoop]
    · exact g1
    · rw [g2, h3]
    · rw [g3, h4]

theorem iterReflection_unlimited (policies : Option CrewExecutionPolicies)
    (hml : configuredMaxReflectionCycles policies = none ∨
      configuredMaxReflectionCycles policies = some 0) :
    ∀ (n : Nat) (ts : TerminationState), ts.terminated = false →
      (iterReflection policies n ts).terminated = false ∧
      (iterReflection policies n ts).reason = ts.reason ∧
      (iterReflection policies n ts).terminationDetail = ts.terminationDetail := by
  intro n
  induction n with
  | zero => intro ts hts; exact ⟨hts, rfl, rfl⟩
  | succ m ih =>
    intro ts hts
    obtain ⟨h1, h2, h3, h4⟩ := incrementReflectionCycle_unlimited policies ts hml hts
    obtain ⟨g1, g2, g3⟩ := ih (incrementReflectionCycle policies ts).2 h2
    refine ⟨?_, ?_, ?_⟩ <;> simp only [iterReflection]
    · exact g1
    · rw [g2, h3]
    · rw [g3, h4]

/-- C10: when the execution policy's `maxAgentLoops` (respectively
`maxReflectionCycles`) is absent or `0`, any number of increments on a
non-terminated orchestrator returns `true` on the next call and never sets
the termination state: a zero ceiling behaves as unlimited, not as forbidding
all iterations. -/
theorem zero_ceiling_unlimited (policies : Option CrewExecutionPolicies)
    (ts : TerminationState) (agentId : String) (n : Nat) (hts : ts.terminated = false) :
    ((configuredMaxAgentLoops policies = none ∨ configuredMaxAgentLoops policies = some 0) →
      (iterAgentLoop policies agentId n ts).terminated = false ∧
      (iterAgentLoop policies agentId n ts).reason = ts.reason ∧
      (iterAgentLoop policies agentId n ts).terminationDetail = ts.terminationDetail ∧
      (incrementAgentLoop policies (iterAgentLoop policies agentId n ts) agentId).1 = true) ∧
    ((configuredMaxReflectionCycles policies = none ∨
        configuredMaxReflectionCycles policies = some 0) →
      (iterReflection policies n ts).terminated = false ∧
      (iterReflection policies n ts).reason = ts.reason ∧
      (iterReflection policies n ts).terminationDetail = ts.terminationDetail ∧
      (incrementReflectionCycle policies (iterReflection policies n ts)).1 = true) := by
  constructor
  · intro hml
    obtain ⟨g1, g2, g3⟩ := iterAgentLoop_unlimited policies agentId hml n ts hts
    exact ⟨g1, g2, g3, (incrementAgentLoop_unlimited policies _ agentId hml g1).1⟩
  · intro hml
    obtain ⟨g1, g2, g3⟩ := iterReflection_unlimited policies hml n ts hts
    exact ⟨g1, g2, g3, (incrementReflectionCycle_unlimited policies _ hml g1).1⟩

/-- C10 witness: a configured `maxAgentLoops` of `0` and an absent
`maxReflectionCycles`, driven five iterations from a fresh state. -/
theorem zero_ceiling_unlimited_witness :
    ((iterAgentLoop c10Policies "a" 5 initialTermination).terminated = false ∧
      (iterAgentLoop c10Policies "a" 5 initialTermination).reason = none ∧
      (iterAgentLoop c10Policies "a" 5 initialTermination).terminationDetail = none ∧
      (incrementAgentLoop c10Policies (iterAgentLoop c10Policies "a" 5 initialTermination) "a").1
        = true) ∧
    ((iterReflection c10Policies 5 initialTermination).terminated = false ∧
      (iterReflection c10Policies 5 initialTermination).reason = none ∧
      (iterReflection c10Policies 5 initialTermination).terminationDetail = none ∧
      (incrementReflectionCycle c10Policies (iterReflection c10Policies 5 initialTermination)).1
        = true) :=
  ⟨(zero_ceiling_unlimited c10Policies initialTermination "a" 5 rfl).1 (Or.inr rfl),
   (zero_ceiling_unlimited c10Policies initialTermination "a" 5 rfl).2 (Or.inl rfl)⟩

/-! ## C2 — batch executor result counts and hook failures -/

theorem length_filter_add_length_filter_not {α : Type} (p : α → Bool) (l : List α) :
    (l.filter p).length + (l.filter (fun a => !p a)).length = l.length := by
  induction l with
  | nil => rfl
  | cons a l ih =>
    by_cases h : p a = true
    · simp [List.filter_cons, h, ih]
      omega
    · simp only [List.filter_cons, h, Bool.not_eq_true] at ih ⊢
      simp [h, ih]
      omega

theorem processItems_length_of_onResult_ok (opts : ParallelExecutorOptions)
    (hRes : ∀ r, runHook opts.onResult r = Except.ok ()) (items : List AgentWork) :
    (processItems opts items).length = items.length := by
  induction items with
  | nil => rfl
  | cons item rest ih =>
    simp only [processItems, hRes]
    simp [ih]

/-- C2 (amended): provided the supplied hooks do not themselves raise,
`runBatch` resolves with exactly one result per submitted item and
`succeeded + failed` counts equal to the submitted item count — for every set
of actions, including actions that all raise. A raising `onStartBatch` or
`onFinishBatch` rejects the batch, and a rejecting `onResult` appends an
extra failed result (see the counterexample). -/
theorem runBatch_summary_counts_amended (opts : ParallelExecutorOptions)
    (items : List AgentWork)
    (hStart : ∀ n, runHook opts.onStartBatch n = Except.ok ())
    (hRes : ∀ r, runHook opts.onResult r = Except.ok ())
    (hFin : ∀ s, runHook opts.onFinishBatch s = Except.ok ()) :
    ∃ s, runBatch opts items = .ok s ∧
      s.results.length = items.length ∧
      s.succeeded.length + s.failed.length = items.length ∧
      s.succeeded = s.results.filter (fun r => r.success) ∧
      s.failed = s.results.filter (fun r => !r.success) := by
  have hrun : runBatch opts items =
      .ok { results := processItems opts items,
            succeeded := (processItems opts items).filter (fun r => r.success),
            failed := (processItems opts items).filter (fun r => !r.success),
            durationMs := 0 } := by
    simp only [runBatch, hStart, hFin]
  refine ⟨_, hrun, ?_, ?_, rfl, rfl⟩
  · exact processItems_length_of_onResult_ok opts hRes items
  · rw [length_filter_add_length_filter_not]
    exact processItems_length_of_onResult_ok opts hRes items

/-- C2 counterexample: a raising `onStartBatch` hook rejects the batch
(`runBatch` does not resolve), and a rejecting `onResult` hook makes the
summary carry two results for a single submitted item, so succeeded+failed
is 2, not the submitted count 1. -/
theorem runBatch_hook_throw_counterexample :
    runBatch c2BadStartOpts [c2OkItem] = .error "hook boom" ∧
    (runBatch c2BadResultOpts [c2OkItem]).map
        (fun s => (s.results.length, s.succeeded.length, s.failed.length)) =
      .ok (2, 1, 1) := by
  constructor
  · rfl
  · rfl

/-- C2 witness: a one-item batch whose only action raises, with no hooks
supplied, still resolves with one (failed) result. -/
theorem runBatch_summary_counts_amended_witness :
    ∃ s, runBatch c2PlainOpts [c2FailItem] = .ok s ∧
      s.results.length = 1 ∧
      s.succeeded.length + s.failed.length = 1 ∧
      s.succeeded = s.results.filter (fun r => r.success) ∧
      s.failed = s.results.filter (fun r => !r.success) :=
  runBatch_summary_counts_amended c2PlainOpts [c2FailItem]
    (fun _ => rfl) (fun _ => rfl) (fun _ => rfl)

/-! ## C1 — planner step-id normalization -/

theorem posId_inj {j k : Nat} (h : posId j = posId k) : j = k := by
  apply natToDec_inj
  have hd := congrArg String.data h
  simp only [posId, String.data_append] at hd
  have hdd := List.append_cancel_left hd
  cases hjq : natToDec j with
  | mk dj =>
    cases hkq : natToDec k with
    | mk dk =>
      rw [hjq, hkq] at hdd
      exact congrArg String.mk hdd

theorem phase1_length (steps : List RawPlannedStep) :
    ∀ idx, (normalizeStepsPhase1 idx steps).length = steps.length := by
  induction steps with
  | nil => intro idx; rfl
  | cons hd tl ih => intro idx; simp [normalizeStepsPhase1, ih]

theorem phase1_get (steps : List RawPlannedStep) :
    ∀ (idx i : Nat) (s : RawPlannedStep), steps[i]? = some s →
      (normalizeStepsPhase1 idx steps)[i]? = some
        ({ id := s.id.getD (posId (idx + i + 1)), description := s.description,
           agentId := s.agentId, parallelGroup := s.parallelGroup,
           dependsOn := some (s.dependsOn.getD []), status := some .pending,
           errorMessage := none } : PlanStep) := by
  induction steps with
  | nil => intro idx i s h; simp at h
  | cons hd tl ih =>
    intro idx i s h
    cases i with
    | zero =>
      simp only [List.getElem?_cons_zero, Option.some_inj] at h
      subst h
      simp [normalizeStepsPhase1]
    | succ j =>
      simp only [List.getElem?_cons_succ] at h
      have := ih (idx + 1) j s h
      have harith : idx + 1 + j + 1 = idx + (j + 1) + 1 := by omega
      rw [harith] at this
      simpa [normalizeStepsPhase1] using this

theorem noPositionalClash_spec (steps : List RawPlannedStep)
    (h : noPositionalClash steps = true) :
    ∀ i s x k, steps[i]? = some s → s.id = some x → i + 2 ≤ k → k ≤ steps.length →
      x ≠ posId k := by
  intro i s x k hget hid hk1 hk2
  have hi : i < steps.length := (List.getElem?_eq_some.mp hget).1
  have hx : stepIdAt steps i = some x := by
    simp [stepIdAt, hget, hid]
  simp only [noPositionalClash, List.all_eq_true] at h
  have hkm : k - 1 < steps.length := by omega
  have h2 := h i (List.mem_range.mpr hi) (k - 1) (List.mem_range.mpr hkm)
  have hik : i < k - 1 := by omega
  rw [if_pos hik] at h2
  have hkk : k - 1 + 1 = k := by omega
  rw [hkk, hx] at h2
  simpa using h2

theorem dedup_nodup_aux (n : Nat) :
    ∀ (ps : List PlanStep) (start : Nat) (seen : List String),
      start + ps.length ≤ n →
      (∀ x ∈ seen, ∀ k, start + 1 ≤ k → k ≤ n → x ≠ posId k) →
      (∀ i s', ps[i]? = some s' →
        s'.id = posId (start + i + 1) ∨
        (∀ k, start + i + 2 ≤ k → k ≤ n → s'.id ≠ posId k)) →
      ((dedupStepIds start seen ps).map PlanStep.id).Nodup ∧
      (∀ y ∈ (dedupStepIds start seen ps).map PlanStep.id, y ∉ seen) := by
  intro ps
  induction ps with
  | nil =>
    intro start seen _ _ _
    exact ⟨List.nodup_nil, by simp [dedupStepIds]⟩
  | cons hd tl ih =>
    intro start seen hlen hseenFresh hElem
    have hstartn : start + 1 ≤ n := by
      simp only [List.length_cons] at hlen
      omega
    have hHd := hElem 0 hd (by simp)
    have hHdInfo : hd.id = posId (start + 1) ∨
        (∀ k, start + 2 ≤ k → k ≤ n → hd.id ≠ posId k) := by
      rcases hHd with h | h
      · left; simpa using h
      · right; intro k hk1 hk2; exact h k (by omega) hk2
    set newId := if hd.id ∈ seen then posId (start + 1) else hd.id with hNewDef
    have hNewNotSeen : newId ∉ seen := by
      by_cases hmem : hd.id ∈ seen
      · rw [hNewDef, if_pos hmem]
        intro hin
        exact hseenFresh _ hin (start + 1) (le_refl _) hstartn rfl
      · rw [hNewDef, if_neg hmem]
        exact hmem
    have hNewFresh : ∀ k, start + 2 ≤ k → k ≤ n → newId ≠ posId k := by
      intro k hk1 hk2
      by_cases hmem : hd.id ∈ seen
      · rw [hNewDef, if_pos hmem]
        intro heq
        have := posId_inj heq
        omega
      · rw [hNewDef, if_neg hmem]
        rcases hHdInfo with h | h
        · rw [h]
          intro heq
          have := posId_inj heq
          omega
        · exact h k hk1 hk2
    have hUnfold : dedupStepIds start seen (hd :: tl) =
        { hd with id := newId } :: dedupStepIds (start + 1) (newId :: seen) tl := by
      simp only [dedupStepIds]
    obtain ⟨hnd, hdisj⟩ := ih (start + 1) (newId :: seen)
      (by simp only [List.length_cons] at hlen; omega)
      (by
        intro x hx k hk1 hk2
        rcases List.mem_cons.mp hx with hx | hx
        · subst hx; exact hNewFresh k hk1 hk2
        · exact hseenFresh x hx k (by omega) hk2)
      (by
        intro i s' hget
        have := hElem (i + 1) s' (by simpa using hget)
        have harith : start + (i + 1) + 1 = start + 1 + i + 1 := by omega
        have harith2 : start + (i + 1) + 2 = start + 1 + i + 2 := by omega
        rcases this with h | h
        · left; rw [← harith]; exact h
        · right; intro k hk1 hk2; exact h k (by omega) hk2)
    rw [hUnfold]
    simp only [List.map_cons]
    constructor
    · rw [List.nodup_cons]
      refine ⟨?_, hnd⟩
      intro hin
      exact hdisj _ hin (List.mem_cons_self _ _)
    · intro y hy
      rcases List.mem_cons.mp hy with hy | hy
      · subst hy; exact hNewNotSeen
      · intro hseen
        exact hdisj y hy (List.mem_cons_of_mem _ hseen)

/-- C1 (amended): `invokePlanner`'s normalization assigns sequential ids
(`s1`, `s2`, …) to steps lacking one and reassigns the positional sequential
id to any later collision, the first occurrence keeping its id; the resulting
ids are pairwise distinct provided no explicitly supplied raw id equals the
positional id `s(j+1)` of a strictly later position `j` (the counterexample
shows distinctness fails without that proviso). -/
theorem planner_dedup_unique_ids_amended (steps : List RawPlannedStep)
    (h : noPositionalClash steps = true) :
    ((normalizePlanSteps steps).map PlanStep.id).Nodup := by
  have hspec := noPositionalClash_spec steps h
  unfold normalizePlanSteps
  have hElem : ∀ i s', (normalizeStepsPhase1 0 steps)[i]? = some s' →
      s'.id = posId (0 + i + 1) ∨
      (∀ k, 0 + i + 2 ≤ k → k ≤ steps.length → s'.id ≠ posId k) := by
    intro i s' hget
    have hi : i < (normalizeStepsPhase1 0 steps).length := (List.getElem?_eq_some.mp hget).1
    rw [phase1_length] at hi
    have hs : steps[i]? = some steps[i] := List.getElem?_eq_getElem hi
    have hform := phase1_get steps 0 i steps[i] hs
    rw [hget] at hform
    have hs' := Option.some_inj.mp hform
    cases hid : steps[i].id with
    | none =>
      left
      rw [hs']
      simp [hid]
    | some x =>
      right
      intro k hk1 hk2
      rw [hs']
      simp only [hid, Option.getD_some]
      exact hspec i steps[i] x k hs hid (by omega) hk2
  exact (dedup_nodup_aux steps.length (normalizeStepsPhase1 0 steps) 0 []
    (by rw [phase1_length]; omega) (by simp) hElem).1

/-- C1 counterexample: a raw plan decision accepted by the planner's parser
whose two steps both carry id `s2`; the second collides, is reassigned its
positional id `s2` — which is the same string — so the returned ids are not
pairwise distinct. -/
theorem planner_dedup_collision_counterexample :
    parsePlanDecision c1Raw = .ok { rationale := "ok", steps := c1CollisionSteps } ∧
    (normalizePlanSteps c1CollisionSteps).map PlanStep.id = ["s2", "s2"] ∧
    ¬ ((normalizePlanSteps c1CollisionSteps).map PlanStep.id).Nodup := by
  refine ⟨by decide, by decide, by decide⟩

/-- C1 witness: the spec's own example — two raw steps both specifying `s1`;
the proviso holds, the second is reassigned `s2`, and the ids are distinct. -/
theorem planner_dedup_unique_ids_amended_witness :
    noPositionalClash c1DemoSteps = true ∧
    (normalizePlanSteps c1DemoSteps).map PlanStep.id = ["s1", "s2"] ∧
    ((normalizePlanSteps c1DemoSteps).map PlanStep.id).Nodup :=
  ⟨by decide, by decide, planner_dedup_unique_ids_amended c1DemoSteps (by decide)⟩

/-! ## C6 — route-decision attempt loop -/

theorem routeLoop_all_fail_aux (llm : LlmFun) (a : Nat)
    (hfail : ∀ m, ∃ r e, llm m = .ok r ∧ parseRouteDecision r = .error e) :
    ∀ (left : Nat) (msgs : List LlmChatMessage) (le : Option String) (calls : Nat),
      1 ≤ left →
      ∃ e r fm, routeLoopGo llm none a left msgs le calls =
          { outcome := .error (routeExhaustText a (some e)), calls := calls + left,
            finalMessages := fm } ∧
        llm fm = .ok r ∧ parseRouteDecision r = .error e := by
  intro left
  induction left with
  | zero => intro msgs le calls h; omega
  | succ l ih =>
    intro msgs le calls _
    obtain ⟨r, e, hllm, hparse⟩ := hfail msgs
    cases l with
    | zero =>
      refine ⟨e, r, msgs, ?_, hllm, hparse⟩
      simp only [routeLoopGo, hllm, hparse, runAttemptHook, if_pos]
    | succ l2 =>
      have hstep : routeLoopGo llm none a (l2 + 2) msgs le calls =
          routeLoopGo llm none a (l2 + 1)
            (msgs ++ [{ role := .assistant, content := r },
                      { role := .user, content := buildRepairInstruction e }])
            (some e) (calls + 1) := by
        simp only [routeLoopGo, hllm, hparse, runAttemptHook]
        simp
      obtain ⟨e2, r2, fm, hrec, hllm2, hparse2⟩ :=
        ih (msgs ++ [{ role := .assistant, content := r },
                     { role := .user, content := buildRepairInstruction e }])
          (some e) (calls + 1) (by omega)
      refine ⟨e2, r2, fm, ?_, hllm2, hparse2⟩
      rw [hstep, hrec]
      have : calls + 1 + (l2 + 1) = calls + (l2 + 1 + 1) := by omega
      rw [this]

/-- C6: with attempt ceiling A ≥ 1 (and the effective ceiling computed by the
orchestrator is always ≥ 1): if the first model response parses as a valid
route decision, the acquisition loop performs exactly one model call and zero
repair round-trips (the message sequence is unchanged); a failed non-final
attempt appends exactly the raw model output and the standardized repair
instruction before retrying; and when every response fails parsing, the loop
performs exactly A model calls and ends with an error whose message contains
the last parse error. -/
theorem acquireRouteDecision_attempt_counts :
    (∀ cfg : CrewOrchestratorConfig, 1 ≤ effectiveRouteMaxAttempts cfg) ∧
    (∀ (llm : LlmFun) (a : Nat) (msgs : List LlmChatMessage) (r : String) (d : RouteDecision),
      1 ≤ a → llm msgs = .ok r → parseRouteDecision r = .ok d →
      routeLoopGo llm none a a msgs none 0 =
        { outcome := .ok d, calls := 1, finalMessages := msgs }) ∧
    (∀ (llm : LlmFun) (a left : Nat) (msgs : List LlmChatMessage) (le : Option String)
        (calls : Nat) (r : String) (e : String),
      llm msgs = .ok r → parseRouteDecision r = .error e →
      routeLoopGo llm none a (left + 2) msgs le calls =
        routeLoopGo llm none a (left + 1)
          (msgs ++ [{ role := .assistant, content := r },
                    { role := .user, content := buildRepairInstruction e }])
          (some e) (calls + 1)) ∧
    (∀ (llm : LlmFun) (a : Nat) (msgs : List LlmChatMessage) (le : Option String)
        (calls : Nat) (r : String) (e : String),
      llm msgs = .ok r → parseRouteDecision r = .error e →
      routeLoopGo llm none a 1 msgs le calls =
        { outcome := .error (routeExhaustText a (some e)), calls := calls + 1,
          finalMessages := msgs }) ∧
    (∀ (llm : LlmFun) (a : Nat) (msgs : List LlmChatMessage),
      1 ≤ a →
      (∀ m, ∃ r e, llm m = .ok r ∧ parseRouteDecision r = .error e) →
      ∃ e r fm, routeLoopGo llm none a a msgs none 0 =
          { outcome := .error (routeExhaustText a (some e)), calls := a,
            finalMessages := fm } ∧
        llm fm = .ok r ∧ parseRouteDecision r = .error e ∧
        routeExhaustText a (some e) =
          ("CrewOrchestrator: Failed to parse route decision after " ++ natToDec a ++
            " attempts. Last error: ") ++ e) := by
  refine ⟨?_, ?_, ?_, ?_, ?_⟩
  · intro cfg
    unfold effectiveRouteMaxAttempts
    cases h : cfg.routeDecisionMaxAttempts.getD 3 with
    | zero => simp
    | succ m => simp
  · intro llm a msgs r d ha hllm hparse
    cases a with
    | zero => omega
    | succ a2 =>
      simp only [routeLoopGo, hllm, hparse, runAttemptHook]
  · intro llm a left msgs le calls r e hllm hparse
    simp only [routeLoopGo, hllm, hparse, runAttemptHook]
    simp
  · intro llm a msgs le calls r e hllm hparse
    simp only [routeLoopGo, hllm, hparse, runAttemptHook, if_pos]
  · intro llm a msgs ha hfail
    obtain ⟨e, r, fm, hrun, hllm, hparse⟩ := routeLoop_all_fail_aux llm a hfail a msgs none 0 ha
    refine ⟨e, r, fm, ?_, hllm, hparse, ?_⟩
    · rw [hrun]
      have : 0 + a = a := by omega
      rw [this]
    · simp [routeExhaustText, String.append_assoc]

/-- C6 witness: a first-attempt success makes exactly one call with no repair
messages; a permanently invalid response at ceiling 2 makes exactly 2 calls
and fails with the last parse error embedded in the message. -/
theorem acquireRouteDecision_attempt_counts_witness :
    routeLoopGo c6LlmOk none 3 3 [] none 0 =
      { outcome := .ok { strategy := .direct_execution, rationale := "quick" },
        calls := 1, finalMessages := [] } ∧
    ∃ e r fm, routeLoopGo c6LlmBad none 2 2 [] none 0 =
        { outcome := .error (routeExhaustText 2 (some e)), calls := 2,
          finalMessages := fm } ∧
      c6LlmBad fm = .ok r ∧ parseRouteDecision r = .error e ∧
      routeExhaustText 2 (some e) =
        ("CrewOrchestrator: Failed to parse route decision after " ++ natToDec 2 ++
          " attempts. Last error: ") ++ e := by
  constructor
  · exact acquireRouteDecision_attempt_counts.2.1 c6LlmOk 3 []
      c6RouteOkText { strategy := .direct_execution, rationale := "quick" }
      (by decide) rfl (by decide)
  · exact acquireRouteDecision_attempt_counts.2.2.2.2 c6LlmBad 2 [] (by decide)
      (fun m => ⟨"nope", "RouteDecision parse error: no JSON object found.", rfl, by decide⟩)

/-! ## C5 — result matching loses steps whose `agentId` is unset -/

/-- C5 (code bug): on the repository's own deadlock test input (`s1` free,
`s2` depending on the nonexistent `sX`) with the test suite's uniformly
succeeding work factory, the dependency-free step `s1` does **not** end
"done": the result-matching predicate compares the step's unset `agentId`
against the work item's agent id (`step.agentId || step.id`), never matches,
and leaves `s1` stuck "running" until the deadlock sweep marks it "error".
The executor's own test (`expects s1 done, stepsExecuted 1`) and the claim
both require `s1` to end "done"; the code returns `stepsExecuted = 0` and
marks every step "error" with the deadlock message. -/
theorem planDAG_unmatched_agent_error_eval :
    (dagRun (noDagHooks Unit) c5Pexec c5TestWork c5Plan ()).map
        (fun t => (t.1.map (fun s => (s.id, s.status, s.errorMessage)),
                   t.2.2.stepsExecuted, t.2.2.waves)) =
      .ok ([("s1", some StepStatus.error, some "Deadlock: dependencies unresolved"),
            ("s2", some StepStatus.error, some "Deadlock: dependencies unresolved")],
           0, 1) := by
  decide

/-! ## C4 — the wave loop terminates -/

theorem pendMono_refl (steps : List PlanStep) : PendMono steps steps :=
  ⟨rfl, fun _ s' h hp => ⟨s', h, hp⟩⟩

theorem pendMono_trans {s1 s2 s3 : List PlanStep} (h12 : PendMono s1 s2)
    (h23 : PendMono s2 s3) : PendMono s1 s3 := by
  refine ⟨h23.1.trans h12.1, ?_⟩
  intro q s' h hp
  obtain ⟨t, ht, hpt⟩ := h23.2 q s' h hp
  exact h12.2 q t ht hpt

theorem statusEq_pendMono {s1 s2 : List PlanStep} (h : StatusEq s1 s2) : PendMono s1 s2 := by
  refine ⟨h.1, ?_⟩
  intro q s' hq hp
  obtain ⟨s, hs, hst⟩ := h.2 q s' hq
  exact ⟨s, hs, by rw [← hst]; exact hp⟩

theorem pendMono_set (steps : List PlanStep) (p : Nat) (s1 : PlanStep)
    (h1 : isPendingStatus s1.status = false) : PendMono steps (steps.set p s1) := by
  refine ⟨List.length_set steps p s1 ▸ rfl, ?_⟩
  intro q s' hq hp
  rw [List.getElem?_set] at hq
  by_cases hpq : p = q
  · rw [if_pos hpq] at hq
    by_cases hlt : p < steps.length
    · rw [if_pos hlt] at hq
      cases hq
      rw [h1] at hp
      cases hp
    · rw [if_neg hlt] at hq
      cases hq
  · rw [if_neg hpq] at hq
    exact ⟨s', hq, hp⟩

theorem countP_le_of_pointwise {α : Type} (p : α → Bool) :
    ∀ (l l' : List α), l'.length = l.length →
      (∀ (i : Nat) (a' : α), l'[i]? = some a' → p a' = true → ∃ a, l[i]? = some a ∧ p a = true) →
      l'.countP p ≤ l.countP p := by
  intro l
  induction l with
  | nil =>
    intro l' hlen _
    have := List.eq_nil_of_length_eq_zero hlen
    subst this
    simp
  | cons a l ih =>
    intro l' hlen hpt
    cases l' with
    | nil => simp
    | cons b l2 =>
      simp only [List.countP_cons]
      have htail : l2.countP p ≤ l.countP p := by
        refine ih l2 (by simpa using hlen) ?_
        intro i c hc hpc
        have := hpt (i + 1) c (by simpa using hc) hpc
        simpa using this
      have hhead : p b = true → p a = true := by
        intro hp
        obtain ⟨c, hc, hpc⟩ := hpt 0 b (by simp) hp
        simp only [List.getElem?_cons_zero, Option.some_inj] at hc
        rw [hc]
        exact hpc
      by_cases hp : p b = true
      · rw [if_pos hp, if_pos (hhead hp)]
        omega
      · rw [if_neg hp]
        by_cases hpa : p a = true
        · rw [if_pos hpa]; omega
        · rw [if_neg hpa]; omega

theorem countP_lt_of_pointwise {α : Type} (p : α → Bool) :
    ∀ (l l' : List α) (i : Nat) (a a' : α), l'.length = l.length →
      (∀ (j : Nat) (b' : α), l'[j]? = some b' → p b' = true → ∃ b, l[j]? = some b ∧ p b = true) →
      l[i]? = some a → l'[i]? = some a' → p a = true → p a' = false →
      l'.countP p < l.countP p := by
  intro l
  induction l with
  | nil =>
    intro l' i a a' _ _ ha _ _ _
    simp at ha
  | cons c l ih =>
    intro l' i a a' hlen hpt ha ha' hpa hpa'
    cases l' with
    | nil => simp at ha'
    | cons c' l2 =>
      simp only [List.countP_cons]
      have hptTail : ∀ (j : Nat) (b' : α), l2[j]? = some b' → p b' = true →
          ∃ b, l[j]? = some b ∧ p b = true := by
        intro j b hb hpb
        have := hpt (j + 1) b (by simpa using hb) hpb
        simpa using this
      cases i with
      | zero =>
        simp only [List.getElem?_cons_zero, Option.some_inj] at ha ha'
        subst ha; subst ha'
        rw [if_pos hpa, hpa']
        have := countP_le_of_pointwise p l l2 (by simpa using hlen) hptTail
        simp
        omega
      | succ j =>
        simp only [List.getElem?_cons_succ] at ha ha'
        have htail := ih l2 j a a' (by simpa using hlen) hptTail ha ha' hpa hpa'
        have hhead : p c' = true → p c = true := by
          intro hp
          obtain ⟨b, hb, hpb⟩ := hpt 0 c' (by simp) hp
          simp only [List.getElem?_cons_zero, Option.some_inj] at hb
          rw [hb]; exact hpb
        by_cases hp : p c' = true
        · rw [if_pos hp, if_pos (hhead hp)]; omega
        · rw [if_neg hp]
          by_cases hpc : p c = true
          · rw [if_pos hpc]; omega
          · rw [if_neg hpc]; omega

theorem statusEq_refl (steps : List PlanStep) : StatusEq steps steps :=
  ⟨rfl, fun _ s' h => ⟨s', h, rfl⟩⟩

theorem statusEq_trans {s1 s2 s3 : List PlanStep} (h12 : StatusEq s1 s2)
    (h23 : StatusEq s2 s3) : StatusEq s1 s3 := by
  refine ⟨h23.1.trans h12.1, ?_⟩
  intro q s' h
  obtain ⟨t, ht, hst⟩ := h23.2 q s' h
  obtain ⟨u, hu, hsu⟩ := h12.2 q t ht
  exact ⟨u, hu, hst.trans hsu⟩

theorem statusEq_set (steps : List PlanStep) (p : Nat) (s1 s : PlanStep)
    (hp : steps[p]? = some s) (hst : s1.status = s.status) :
    StatusEq steps (steps.set p s1) := by
  refine ⟨List.length_set steps p s1 ▸ rfl, ?_⟩
  intro q s' hq
  rw [List.getElem?_set] at hq
  by_cases hpq : p = q
  · rw [if_pos hpq] at hq
    by_cases hlt : p < steps.length
    · rw [if_pos hlt] at hq
      cases hq
      exact ⟨s, hpq ▸ hp, hst⟩
    · rw [if_neg hlt] at hq
      cases hq
  · rw [if_neg hpq] at hq
    exact ⟨s', hq, rfl⟩

theorem markRunning_pendMono {σ : Type} (hooks : DagHooks σ) :
    ∀ (g : List Nat) (steps : List PlanStep) (hs : σ) (out : List PlanStep × σ),
      markRunning hooks g steps hs = .ok out → PendMono steps out.1 := by
  intro g
  induction g with
  | nil =>
    intro steps hs out h
    simp only [markRunning, Except.ok.injEq] at h
    rw [← h]
    exact pendMono_refl steps
  | cons p ps ih =>
    intro steps hs out h
    cases hp : steps[p]? with
    | none =>
      simp only [markRunning, hp] at h
      exact ih steps hs out h
    | some s =>
      simp only [markRunning, hp] at h
      cases hk : runStepHook hooks.onStepUpdate hs
          { s with status := some StepStatus.running } StepEvent.start with
      | error e =>
        simp only [hk] at h
        exact Except.noConfusion h
      | ok hs1 =>
        simp only [hk] at h
        exact pendMono_trans
          (pendMono_set steps p { s with status := some StepStatus.running } rfl)
          (ih (steps.set p { s with status := some StepStatus.running }) hs1 out h)

theorem markRunning_sets {σ : Type} (hooks : DagHooks σ) :
    ∀ (g : List Nat) (steps : List PlanStep) (hs : σ) (out : List PlanStep × σ),
      markRunning hooks g steps hs = .ok out →
      ∀ p, p ∈ g → p < steps.length →
        ∀ s', out.1[p]? = some s' → isPendingStatus s'.status = false := by
  intro g
  induction g with
  | nil =>
    intro steps hs out h p hp
    simp at hp
  | cons p0 ps ih =>
    intro steps hs out h p hp hlt s' hs'
    cases hp0 : steps[p0]? with
    | none =>
      simp only [markRunning, hp0] at h
      rcases List.mem_cons.mp hp with hpe | hpm
      · subst hpe
        rw [List.getElem?_eq_getElem hlt] at hp0
        cases hp0
      · exact ih steps hs out h p hpm hlt s' hs'
    | some s =>
      simp only [markRunning, hp0] at h
      cases hk : runStepHook hooks.onStepUpdate hs
          { s with status := some StepStatus.running } StepEvent.start with
      | error e =>
        simp only [hk] at h
        exact Except.noConfusion h
      | ok hs1 =>
        simp only [hk] at h
        rcases List.mem_cons.mp hp with hpe | hpm
        · subst hpe
          cases hvp : isPendingStatus s'.status
          · rfl
          · exfalso
            obtain ⟨t, ht, hpt⟩ :=
              (markRunning_pendMono hooks ps _ hs1 out h).2 p s' hs' hvp
            rw [List.getElem?_set] at ht
            rw [if_pos rfl, if_pos hlt] at ht
            cases ht
            simp [isPendingStatus] at hpt
        · exact ih (steps.set p0 { s with status := some StepStatus.running }) hs1 out h p hpm
            (by rw [List.length_set]; exact hlt) s' hs'

theorem applyBuildWork_statusEq (bw : PlanStep → PlanStep × AgentWork)
    (hbw : ∀ s, ((bw s).1).status = s.status) :
    ∀ (g : List Nat) (steps : List PlanStep), StatusEq steps (applyBuildWork bw g steps).1 := by
  intro g
  induction g with
  | nil => intro steps; exact statusEq_refl steps
  | cons p ps ih =>
    intro steps
    cases hp : steps[p]? with
    | none =>
      simp only [applyBuildWork, hp]
      exact ih steps
    | some s =>
      simp only [applyBuildWork, hp]
      have h2 := ih (steps.set p (bw s).1)
      cases hq : applyBuildWork bw ps (steps.set p (bw s).1) with
      | mk steps2 ws =>
        rw [hq] at h2
        exact statusEq_trans (statusEq_set steps p (bw s).1 s hp (hbw s)) h2

theorem applyResults_pendMono {σ : Type} (hooks : DagHooks σ) (idxs : List Nat) :
    ∀ (rs : List AgentWorkResult) (steps : List PlanStep) (hs : σ) (ex : Nat)
      (out : List PlanStep × σ × Nat),
      applyResults hooks idxs rs steps hs ex = .ok out → PendMono steps out.1 := by
  intro rs
  induction rs with
  | nil =>
    intro steps hs ex out h
    simp only [applyResults, Except.ok.injEq] at h
    rw [← h]
    exact pendMono_refl steps
  | cons r rs ih =>
    intro steps hs ex out h
    cases hm : findMatchIdx steps idxs r.agentId with
    | none =>
      simp only [applyResults, hm] at h
      exact ih steps hs ex out h
    | some p =>
      cases hq : steps[p]? with
      | none =>
        simp only [applyResults, hm, hq] at h
        exact ih steps hs ex out h
      | some st =>
        simp only [applyResults, hm, hq] at h
        set st1 := (if r.success = true then { st with status := some StepStatus.done }
          else { st with status := some StepStatus.error,
                         errorMessage := some (resultErrorText r) }) with hst1
        have hnp : isPendingStatus st1.status = false := by
          cases hr : r.success <;> simp [hst1, hr, isPendingStatus]
        cases hk : runStepHook hooks.onStepUpdate hs st1
            (if r.success = true then StepEvent.success else StepEvent.error) with
        | error e =>
          simp only [hk] at h
          exact Except.noConfusion h
        | ok hs1 =>
          simp only [hk] at h
          exact pendMono_trans (pendMono_set steps p st1 hnp)
            (ih (steps.set p st1) hs1 (ex + 1) out h)

theorem processGroups_pendMono {σ : Type} (hooks : DagHooks σ)
    (opts : ParallelExecutorOptions) (bw : PlanStep → PlanStep × AgentWork)
    (hbw : ∀ s, ((bw s).1).status = s.status) :
    ∀ (gs : List (List Nat)) (steps : List PlanStep) (hs : σ) (ex : Nat)
      (out : List PlanStep × σ × Nat),
      processGroups hooks opts bw gs steps hs ex = .ok out → PendMono steps out.1 := by
  intro gs
  induction gs with
  | nil =>
    intro steps hs ex out h
    simp only [processGroups, Except.ok.injEq] at h
    rw [← h]
    exact pendMono_refl steps
  | cons g gs ih =>
    intro steps hs ex out h
    cases hm : markRunning hooks g steps hs with
    | error e =>
      simp only [processGroups, hm] at h
      exact Except.noConfusion h
    | ok out1 =>
      obtain ⟨steps1, hs1⟩ := out1
      simp only [processGroups, hm] at h
      cases hab : applyBuildWork bw g steps1 with
      | mk steps2 works =>
        rw [hab] at h
        cases hb : runBatch opts works with
        | error e =>
          simp only [hb] at h
          exact Except.noConfusion h
        | ok summary =>
          simp only [hb] at h
          cases ha : applyResults hooks g summary.results steps2 hs1 ex with
          | error e =>
            simp only [ha] at h
            exact Except.noConfusion h
          | ok out3 =>
            obtain ⟨steps3, hs3, ex3⟩ := out3
            simp only [ha] at h
            have hse : StatusEq steps1 steps2 := by
              have := applyBuildWork_statusEq bw hbw g steps1
              rw [hab] at this
              exact this
            exact pendMono_trans (markRunning_pendMono hooks g steps hs (steps1, hs1) hm)
              (pendMono_trans (statusEq_pendMono hse)
                (pendMono_trans
                  (applyResults_pendMono hooks g summary.results steps2 hs1 ex
                    (steps3, hs3, ex3) ha)
                  (ih steps3 hs3 ex3 out h)))

theorem pendMono_nonpend {s1 s2 : List PlanStep} (h : PendMono s1 s2) (p : Nat) (t : PlanStep)
    (ht : s1[p]? = some t) (hnp : isPendingStatus t.status = false) :
    ∀ s', s2[p]? = some s' → isPendingStatus s'.status = false := by
  intro s' hs'
  cases hvp : isPendingStatus s'.status
  · rfl
  · exfalso
    obtain ⟨u, hu, hpu⟩ := h.2 p s' hs' hvp
    rw [ht] at hu
    cases hu
    rw [hnp] at hpu
    cases hpu

theorem readyIdxs_spec (index : String → Option Nat) (steps : List PlanStep) (p : Nat)
    (hp : p ∈ readyIdxs index steps) :
    p < steps.length ∧ ∃ s, steps[p]? = some s ∧ isPendingStatus s.status = true := by
  obtain ⟨hr, hf⟩ := List.mem_filter.mp hp
  have hlt : p < steps.length := List.mem_range.mp hr
  refine ⟨hlt, ?_⟩
  cases hq : steps[p]? with
  | none =>
    rw [hq] at hf
    cases hf
  | some s =>
    rw [hq] at hf
    have hready : isReady index steps s = true := hf
    have := (Bool.and_eq_true _ _).mp hready
    exact ⟨s, rfl, this.1⟩

theorem eraseDupsKeep_mem (k : String) :
    ∀ (l seen : List String), k ∈ l → k ∉ seen → k ∈ eraseDupsKeep l seen := by
  intro l
  induction l with
  | nil =>
    intro seen hm _
    cases hm
  | cons c rest ih =>
    intro seen hm hns
    simp only [eraseDupsKeep]
    by_cases hcs : c ∈ seen
    · rw [if_pos hcs]
      rcases List.mem_cons.mp hm with he | hr
      · subst he
        exact absurd hcs hns
      · exact ih seen hr hns
    · rw [if_neg hcs]
      by_cases hkc : k = c
      · exact hkc ▸ List.mem_cons_self c _
      · have hr : k ∈ rest := by
          rcases List.mem_cons.mp hm with he | hr
          · exact absurd he hkc
          · exact hr
        refine List.mem_cons_of_mem c (ih (c :: seen) hr ?_)
        intro hc
        rcases List.mem_cons.mp hc with he2 | hs2
        · exact hkc he2
        · exact hns hs2

theorem waveGroups_cover (steps : List PlanStep) (idxs : List Nat) (p : Nat) (hp : p ∈ idxs) :
    ∃ g, g ∈ waveGroups steps idxs ∧ p ∈ g := by
  refine ⟨idxs.filter (fun q => dagKeyAt steps q == dagKeyAt steps p), ?_, ?_⟩
  · have hk : dagKeyAt steps p ∈ eraseDupsKeep (idxs.map (dagKeyAt steps)) [] :=
      eraseDupsKeep_mem _ _ [] (List.mem_map_of_mem _ hp) (List.not_mem_nil _)
    exact List.mem_map.mpr ⟨dagKeyAt steps p, hk, rfl⟩
  · exact List.mem_filter.mpr ⟨hp, by simp⟩

theorem processGroups_nonpend {σ : Type} (hooks : DagHooks σ)
    (opts : ParallelExecutorOptions) (bw : PlanStep → PlanStep × AgentWork)
    (hbw : ∀ s, ((bw s).1).status = s.status) :
    ∀ (gs : List (List Nat)) (steps : List PlanStep) (hs : σ) (ex : Nat)
      (out : List PlanStep × σ × Nat),
      processGroups hooks opts bw gs steps hs ex = .ok out →
      ∀ p g, g ∈ gs → p ∈ g → p < steps.length →
        ∀ s', out.1[p]? = some s' → isPendingStatus s'.status = false := by
  intro gs
  induction gs with
  | nil =>
    intro steps hs ex out _ p g hg
    cases hg
  | cons g0 gs ih =>
    intro steps hs ex out h p g hg hpg hlt s' hs'
    cases hm : markRunning hooks g0 steps hs with
    | error e =>
      simp only [processGroups, hm] at h
      exact Except.noConfusion h
    | ok out1 =>
      obtain ⟨steps1, hs1⟩ := out1
      simp only [processGroups, hm] at h
      cases hab : applyBuildWork bw g0 steps1 with
      | mk steps2 works =>
        rw [hab] at h
        cases hb : runBatch opts works with
        | error e =>
          simp only [hb] at h
          exact Except.noConfusion h
        | ok summary =>
          simp only [hb] at h
          cases ha : applyResults hooks g0 summary.results steps2 hs1 ex with
          | error e =>
            simp only [ha] at h
            exact Except.noConfusion h
          | ok out3 =>
            obtain ⟨steps3, hs3, ex3⟩ := out3
            simp only [ha] at h
            have hse : StatusEq steps1 steps2 := by
              have := applyBuildWork_statusEq bw hbw g0 steps1
              rw [hab] at this
              exact this
            have hlen1 : steps1.length = steps.length :=
              (markRunning_pendMono hooks g0 steps hs (steps1, hs1) hm).1
            rcases List.mem_cons.mp hg with hge | hgm
            · subst hge
              have hlt1 : p < steps1.length := by rw [hlen1]; exact hlt
              have ht1 : steps1[p]? = some (steps1[p]) := List.getElem?_eq_getElem hlt1
              have hnp1 : isPendingStatus (steps1[p]).status = false :=
                markRunning_sets hooks g steps hs (steps1, hs1) hm p hpg hlt _ ht1
              have hrest : PendMono steps1 out.1 :=
                pendMono_trans (statusEq_pendMono hse)
                  (pendMono_trans
                    (applyResults_pendMono hooks g summary.results steps2 hs1 ex
                      (steps3, hs3, ex3) ha)
                    (processGroups_pendMono hooks opts bw hbw gs steps3 hs3 ex3 out h))
              exact pendMono_nonpend hrest p (steps1[p]) ht1 hnp1 s' hs'
            · have hlen3 : steps3.length = steps.length := by
                have h21 : steps2.length = steps1.length := hse.1
                have h32 : steps3.length = steps2.length :=
                  (applyResults_pendMono hooks g0 summary.results steps2 hs1 ex
                    (steps3, hs3, ex3) ha).1
                omega
              exact ih steps3 hs3 ex3 out h p g hgm hpg (by rw [hlen3]; exact hlt) s' hs'

theorem wave_pend_decrease {σ : Type} (hooks : DagHooks σ)
    (opts : ParallelExecutorOptions) (bw : PlanStep → PlanStep × AgentWork)
    (hbw : ∀ s, ((bw s).1).status = s.status) (index : String → Option Nat)
    (steps : List PlanStep) (hs : σ) (ex : Nat) (r : Nat) (rs : List Nat)
    (hready : readyIdxs index steps = r :: rs) (out : List PlanStep × σ × Nat)
    (hpg : processGroups hooks opts bw (waveGroups steps (r :: rs)) steps hs ex = .ok out) :
    pendCount out.1 < pendCount steps := by
  have hr : r ∈ readyIdxs index steps := by
    rw [hready]
    exact List.mem_cons_self r rs
  obtain ⟨hlt, s, hsq, hpend⟩ := readyIdxs_spec index steps r hr
  obtain ⟨g, hg, hrg⟩ := waveGroups_cover steps (r :: rs) r (List.mem_cons_self r rs)
  have hpm := processGroups_pendMono hooks opts bw hbw (waveGroups steps (r :: rs))
    steps hs ex out hpg
  have hr2 : r < out.1.length := by rw [hpm.1]; exact hlt
  have hs' : out.1[r]? = some (out.1[r]) := List.getElem?_eq_getElem hr2
  have hnp := processGroups_nonpend hooks opts bw hbw (waveGroups steps (r :: rs))
    steps hs ex out hpg r g hg hrg hlt _ hs'
  exact countP_lt_of_pointwise (fun s => isPendingStatus s.status) steps out.1 r s
    (out.1[r]) hpm.1 hpm.2 hsq hs' hpend hnp

theorem dagLoop_isSome {σ : Type} (hooks : DagHooks σ) (opts : ParallelExecutorOptions)
    (bw : PlanStep → PlanStep × AgentWork) (index : String → Option Nat)
    (hbw : ∀ s, ((bw s).1).status = s.status) :
    ∀ (fuel : Nat) (steps : List PlanStep) (hs : σ) (waves ex : Nat),
      pendCount steps < fuel →
      (dagLoop hooks opts bw index fuel steps hs waves ex).isSome = true := by
  intro fuel
  induction fuel with
  | zero =>
    intro steps hs waves ex hfuel
    omega
  | succ fuel ih =>
    intro steps hs waves ex hfuel
    cases hready : readyIdxs index steps with
    | nil =>
      simp only [dagLoop, hready]
      rfl
    | cons r rs =>
      simp only [dagLoop, hready]
      cases hw1 : runWaveHook hooks.onWaveStart hs waves (stepsAt steps (r :: rs)) with
      | error e =>
        simp only [hw1]
        rfl
      | ok hs1 =>
        simp only [hw1]
        cases hpg : processGroups hooks opts bw (waveGroups steps (r :: rs)) steps hs1 ex with
        | error e =>
          simp only [hpg]
          rfl
        | ok out3 =>
          obtain ⟨steps2, hs2, ex2⟩ := out3
          simp only [hpg]
          cases hw2 : runWaveHook hooks.onWaveComplete hs2 waves (stepsAt steps2 (r :: rs)) with
          | error e =>
            simp only [hw2]
            rfl
          | ok hs3 =>
            simp only [hw2]
            have hdec := wave_pend_decrease hooks opts bw hbw index steps hs1 ex r rs hready
              (steps2, hs2, ex2) hpg
            have hdec2 : pendCount steps2 < pendCount steps := hdec
            exact ih steps2 hs3 (waves + 1) ex2 (by omega)

/-- C4: for every finite plan (the cyclic and dangling-dependency ones
included) and every status-preserving work factory — the orchestrator's own
factory only rewrites the step's agent id — the wave loop of
`PlanDAGExecutor.run` reaches its exit within one iteration per initially
pending step plus one: each wave moves every ready step out of the pending
reading, and a wave with no ready step finishes via the deadlock sweep.
`run` itself returns exactly that loop exit. -/
theorem planDAG_run_terminates {σ : Type} (hooks : DagHooks σ)
    (opts : ParallelExecutorOptions) (bw : PlanStep → PlanStep × AgentWork) (plan : Plan)
    (hs : σ) (hbw : ∀ s, ((bw s).1).status = s.status) :
    (dagLoop hooks opts bw (stepIndexOf plan.steps) (pendCount plan.steps + 1)
        plan.steps hs 0 0).isSome = true ∧
    ∃ r, dagLoop hooks opts bw (stepIndexOf plan.steps) (pendCount plan.steps + 1)
        plan.steps hs 0 0 = some r ∧ dagRun hooks opts bw plan hs = r := by
  have h1 := dagLoop_isSome hooks opts bw (stepIndexOf plan.steps) hbw
    (pendCount plan.steps + 1) plan.steps hs 0 0 (by omega)
  refine ⟨h1, ?_⟩
  cases hd : dagLoop hooks opts bw (stepIndexOf plan.steps) (pendCount plan.steps + 1)
      plan.steps hs 0 0 with
  | none =>
    rw [hd] at h1
    cases h1
  | some r =>
    refine ⟨r, rfl, ?_⟩
    simp only [dagRun, hd]

/-- C4 witness: the cyclic plan `s1 ↔ s2` with the test suite's succeeding
work factory terminates within the bounded fuel, and `run` returns the loop
exit. -/
theorem planDAG_run_terminates_witness :
    (dagLoop (noDagHooks Unit) c5Pexec c5TestWork (stepIndexOf c4CyclicPlan.steps)
        (pendCount c4CyclicPlan.steps + 1) c4CyclicPlan.steps () 0 0).isSome = true ∧
    ∃ r, dagLoop (noDagHooks Unit) c5Pexec c5TestWork (stepIndexOf c4CyclicPlan.steps)
        (pendCount c4CyclicPlan.steps + 1) c4CyclicPlan.steps () 0 0 = some r ∧
      dagRun (noDagHooks Unit) c5Pexec c5TestWork c4CyclicPlan () = r :=
  planDAG_run_terminates (noDagHooks Unit) c5Pexec c5TestWork c4CyclicPlan ()
    (fun _ => rfl)

/-- C3 counterexample: with a crew resolving and the route decision parsing
on the first attempt, a raised `onParallelBatchComplete` telemetry hook
escapes `run` — a third throwing path beyond the missing roster and the
exhausted route-repair ceiling. -/
theorem run_hook_abort_counterexample :
    (resolveCrew c3BadCfg).isSome = true ∧
    (acquireRouteDecision c3BadCfg c3Opts).outcome =
      .ok { strategy := .direct_execution, rationale := "quick" } ∧
    runOrchestrator c3BadCfg c3Opts initialTermination = .error "hookboom" :=
  ⟨rfl, rfl, rfl⟩

theorem exists_ok_of_no_error {ε α : Type} (x : Except ε α) (h : ∀ e, x ≠ .error e) :
    ∃ a, x = .ok a := by
  cases x with
  | error e => exact absurd rfl (h e)
  | ok a => exact ⟨a, rfl⟩

theorem no_error_of_exists_ok {ε α : Type} (x : Except ε α) (h : ∃ a, x = .ok a) :
    ∀ e, x ≠ .error e := by
  intro e he
  obtain ⟨a, ha⟩ := h
  rw [he] at ha
  cases ha

theorem markRunning_ok {σ : Type} (hooks : DagHooks σ)
    (hsu : ∀ (hs : σ) (s : PlanStep) (e : StepEvent),
      ∃ hs', runStepHook hooks.onStepUpdate hs s e = .ok hs') :
    ∀ (g : List Nat) (steps : List PlanStep) (hs : σ),
      ∃ out, markRunning hooks g steps hs = .ok out := by
  intro g
  induction g with
  | nil =>
    intro steps hs
    exact ⟨(steps, hs), rfl⟩
  | cons p ps ih =>
    intro steps hs
    cases hp : steps[p]? with
    | none =>
      obtain ⟨out, ho⟩ := ih steps hs
      refine ⟨out, ?_⟩
      simp only [markRunning, hp]
      exact ho
    | some s =>
      obtain ⟨hs1, hk⟩ := hsu hs { s with status := some StepStatus.running } StepEvent.start
      obtain ⟨out, ho⟩ := ih (steps.set p { s with status := some StepStatus.running }) hs1
      refine ⟨out, ?_⟩
      simp only [markRunning, hp, hk]
      exact ho

theorem applyResults_ok {σ : Type} (hooks : DagHooks σ) (idxs : List Nat)
    (hsu : ∀ (hs : σ) (s : PlanStep) (e : StepEvent),
      ∃ hs', runStepHook hooks.onStepUpdate hs s e = .ok hs') :
    ∀ (rs : List AgentWorkResult) (steps : List PlanStep) (hs : σ) (ex : Nat),
      ∃ out, applyResults hooks idxs rs steps hs ex = .ok out := by
  intro rs
  induction rs with
  | nil =>
    intro steps hs ex
    exact ⟨(steps, hs, ex), rfl⟩
  | cons r rs ih =>
    intro steps hs ex
    cases hm : findMatchIdx steps idxs r.agentId with
    | none =>
      obtain ⟨out, ho⟩ := ih steps hs ex
      refine ⟨out, ?_⟩
      simp only [applyResults, hm]
      exact ho
    | some p =>
      cases hq : steps[p]? with
      | none =>
        obtain ⟨out, ho⟩ := ih steps hs ex
        refine ⟨out, ?_⟩
        simp only [applyResults, hm, hq]
        exact ho
      | some st =>
        obtain ⟨hs1, hk⟩ := hsu hs
          (if r.success = true then { st with status := some StepStatus.done }
           else { st with status := some StepStatus.error,
                          errorMessage := some (resultErrorText r) })
          (if r.success = true then StepEvent.success else StepEvent.error)
        obtain ⟨out, ho⟩ := ih
          (steps.set p
            (if r.success = true then { st with status := some StepStatus.done }
             else { st with status := some StepStatus.error,
                            errorMessage := some (resultErrorText r) }))
          hs1 (ex + 1)
        refine ⟨out, ?_⟩
        simp only [applyResults, hm, hq, hk]
        exact ho

theorem processGroups_ok {σ : Type} (hooks : DagHooks σ) (opts : ParallelExecutorOptions)
    (bw : PlanStep → PlanStep × AgentWork)
    (hsu : ∀ (hs : σ) (s : PlanStep) (e : StepEvent),
      ∃ hs', runStepHook hooks.onStepUpdate hs s e = .ok hs')
    (hbatch : ∀ w, ∃ s, runBatch opts w = .ok s) :
    ∀ (gs : List (List Nat)) (steps : List PlanStep) (hs : σ) (ex : Nat),
      ∃ out, processGroups hooks opts bw gs steps hs ex = .ok out := by
  intro gs
  induction gs with
  | nil =>
    intro steps hs ex
    exact ⟨(steps, hs, ex), rfl⟩
  | cons g gs ih =>
    intro steps hs ex
    obtain ⟨out1, hm⟩ := markRunning_ok hooks hsu g steps hs
    obtain ⟨steps1, hs1⟩ := out1
    cases hab : applyBuildWork bw g steps1 with
    | mk steps2 works =>
      obtain ⟨summary, hb⟩ := hbatch works
      obtain ⟨out3, ha⟩ := applyResults_ok hooks g hsu summary.results steps2 hs1 ex
      obtain ⟨steps3, hs3, ex3⟩ := out3
      obtain ⟨out, ho⟩ := ih steps3 hs3 ex3
      refine ⟨out, ?_⟩
      simp only [processGroups, hm, hab, hb, ha]
      exact ho

theorem dagLoop_ok {σ : Type} (hooks : DagHooks σ) (opts : ParallelExecutorOptions)
    (bw : PlanStep → PlanStep × AgentWork) (index : String → Option Nat)
    (hbw : ∀ s, ((bw s).1).status = s.status)
    (hsu : ∀ (hs : σ) (s : PlanStep) (e : StepEvent),
      ∃ hs', runStepHook hooks.onStepUpdate hs s e = .ok hs')
    (hws : ∀ (hs : σ) (w : Nat) (l : List PlanStep),
      ∃ hs', runWaveHook hooks.onWaveStart hs w l = .ok hs')
    (hwc : ∀ (hs : σ) (w : Nat) (l : List PlanStep),
      ∃ hs', runWaveHook hooks.onWaveComplete hs w l = .ok hs')
    (hbatch : ∀ w, ∃ s, runBatch opts w = .ok s) :
    ∀ (fuel : Nat) (steps : List PlanStep) (hs : σ) (waves ex : Nat),
      pendCount steps < fuel →
      ∃ res, dagLoop hooks opts bw index fuel steps hs waves ex = some (.ok res) := by
  intro fuel
  induction fuel with
  | zero =>
    intro steps hs waves ex hfuel
    omega
  | succ fuel ih =>
    intro steps hs waves ex hfuel
    cases hready : readyIdxs index steps with
    | nil =>
      cases hd : dagLoop hooks opts bw index (fuel + 1) steps hs waves ex with
      | none =>
        exfalso
        simp only [dagLoop, hready] at hd
        exact Option.noConfusion hd
      | some r =>
        cases r with
        | error e =>
          exfalso
          simp only [dagLoop, hready, Option.some.injEq] at hd
          exact Except.noConfusion hd
        | ok res => exact ⟨res, rfl⟩
    | cons r rs =>
      obtain ⟨hs1, hw1⟩ := hws hs waves (stepsAt steps (r :: rs))
      obtain ⟨out1, hpg⟩ := processGroups_ok hooks opts bw hsu hbatch
        (waveGroups steps (r :: rs)) steps hs1 ex
      obtain ⟨steps2, hs2, ex2⟩ := out1
      obtain ⟨hs3, hw2⟩ := hwc hs2 waves (stepsAt steps2 (r :: rs))
      have hdec : pendCount steps2 < pendCount steps :=
        wave_pend_decrease hooks opts bw hbw index steps hs1 ex r rs hready
          (steps2, hs2, ex2) hpg
      obtain ⟨res, hres⟩ := ih steps2 hs3 (waves + 1) ex2 (by omega)
      refine ⟨res, ?_⟩
      simp only [dagLoop, hready, hw1, hpg, hw2]
      exact hres

theorem dagRun_ok {σ : Type} (hooks : DagHooks σ) (opts : ParallelExecutorOptions)
    (bw : PlanStep → PlanStep × AgentWork) (plan : Plan) (hs : σ)
    (hbw : ∀ s, ((bw s).1).status = s.status)
    (hsu : ∀ (hs2 : σ) (s : PlanStep) (e : StepEvent),
      ∃ hs', runStepHook hooks.onStepUpdate hs2 s e = .ok hs')
    (hws : ∀ (hs2 : σ) (w : Nat) (l : List PlanStep),
      ∃ hs', runWaveHook hooks.onWaveStart hs2 w l = .ok hs')
    (hwc : ∀ (hs2 : σ) (w : Nat) (l : List PlanStep),
      ∃ hs', runWaveHook hooks.onWaveComplete hs2 w l = .ok hs')
    (hbatch : ∀ w, ∃ s, runBatch opts w = .ok s) :
    ∃ res, dagRun hooks opts bw plan hs = .ok res := by
  obtain ⟨res, hres⟩ := dagLoop_ok hooks opts bw (stepIndexOf plan.steps) hbw hsu hws hwc
    hbatch (pendCount plan.steps + 1) plan.steps hs 0 0 (by omega)
  refine ⟨res, ?_⟩
  simp only [dagRun, hres]

theorem orchestratorBuildWork_status (da : Option CrewAgent) (s : PlanStep) :
    ((orchestratorBuildWork da s).1).status = s.status := by
  cases da with
  | none => rfl
  | some a =>
    simp only [orchestratorBuildWork]
    split
    · rfl
    · rfl

theorem orchestratorDagHooks_stepOk (cfg : CrewOrchestratorConfig)
    (hstep : ∀ h, cfg.onPlanStepUpdate = some h → ∀ st ev, h st ev = .ok ()) :
    ∀ (mem : ShortTermMemory) (s : PlanStep) (e : StepEvent),
      ∃ m', runStepHook (orchestratorDagHooks cfg).onStepUpdate mem s e = .ok m' := by
  intro mem s e
  simp only [orchestratorDagHooks, runStepHook]
  cases hc : cfg.onPlanStepUpdate with
  | none => exact ⟨_, rfl⟩
  | some h =>
    simp only [hstep h hc s e, Except.map]
    exact ⟨_, rfl⟩

theorem orchestratorDagHooks_waveStartOk (cfg : CrewOrchestratorConfig) :
    ∀ (mem : ShortTermMemory) (w : Nat) (l : List PlanStep),
      ∃ m', runWaveHook (orchestratorDagHooks cfg).onWaveStart mem w l = .ok m' :=
  fun mem _ _ => ⟨mem, rfl⟩

theorem orchestratorDagHooks_waveCompleteOk (cfg : CrewOrchestratorConfig)
    (hwave : ∀ h, cfg.onPlanWaveComplete = some h → ∀ w l, h w l = .ok ()) :
    ∀ (mem : ShortTermMemory) (w : Nat) (l : List PlanStep),
      ∃ m', runWaveHook (orchestratorDagHooks cfg).onWaveComplete mem w l = .ok m' := by
  intro mem w l
  simp only [orchestratorDagHooks, runWaveHook]
  cases hc : cfg.onPlanWaveComplete with
  | none => exact ⟨_, rfl⟩
  | some h =>
    simp only [hwave h hc w l, Except.map]
    exact ⟨_, rfl⟩

theorem runBatch_orch_ok (cfg : CrewOrchestratorConfig) (crew : Crew)
    (hbatchc : ∀ h, cfg.onParallelBatchComplete = some h → ∀ s, h s = .ok ()) :
    ∀ w, ∃ s, runBatch (orchestratorPexecOpts cfg crew) w = .ok s := by
  intro w
  simp only [runBatch, orchestratorPexecOpts, runHook]
  cases hc : cfg.onParallelBatchComplete with
  | none => exact ⟨_, rfl⟩
  | some h =>
    simp only [hbatchc h hc]
    exact ⟨_, rfl⟩

theorem plannerPhase_ok (cfg : CrewOrchestratorConfig) (crew : Crew)
    (options : OrchestratorRunOptions)
    (hgen : ∀ h, cfg.onPlanGenerated = some h → ∀ p v, h p v = .ok ()) :
    ∃ pm, plannerPhase cfg crew options = .ok pm := by
  have hrg : ∀ p v, runPlanGeneratedHook cfg p v = .ok () := by
    intro p v
    simp only [runPlanGeneratedHook]
    cases hc : cfg.onPlanGenerated with
    | none => rfl
    | some h => exact hgen h hc p v
  refine exists_ok_of_no_error _ ?_
  intro e he
  cases ht : plannerPhaseTry cfg crew options with
  | ok p =>
    simp only [plannerPhase, ht] at he
    exact Except.noConfusion he
  | error e2 =>
    simp only [plannerPhase, ht, hrg] at he
    exact Except.noConfusion he

theorem executeDirectExecution_ok (cfg : CrewOrchestratorConfig) (crew : Crew)
    (ts : TerminationState) (mem : ShortTermMemory)
    (hbatchc : ∀ h, cfg.onParallelBatchComplete = some h → ∀ s, h s = .ok ()) :
    ∃ r, executeDirectExecution cfg crew ts mem = .ok r := by
  refine exists_ok_of_no_error _ ?_
  intro e he
  simp only [executeDirectExecution] at he
  split at he
  · exact Except.noConfusion he
  · split at he
    · exact Except.noConfusion he
    · split at he
      · next e2 heq =>
          exact no_error_of_exists_ok _ ⟨_, (runBatch_orch_ok cfg crew hbatchc _).choose_spec⟩
            e2 heq
      · exact Except.noConfusion he

theorem executePlanThenParallel_ok (cfg : CrewOrchestratorConfig) (crew : Crew)
    (ts : TerminationState) (mem : ShortTermMemory) (plan : Plan)
    (hbatchc : ∀ h, cfg.onParallelBatchComplete = some h → ∀ s, h s = .ok ())
    (hstep : ∀ h, cfg.onPlanStepUpdate = some h → ∀ st ev, h st ev = .ok ())
    (hwave : ∀ h, cfg.onPlanWaveComplete = some h → ∀ w l, h w l = .ok ()) :
    ∃ r, executePlanThenParallel cfg crew ts mem plan = .ok r := by
  refine exists_ok_of_no_error _ ?_
  intro e he
  simp only [executePlanThenParallel] at he
  split at he
  · exact Except.noConfusion he
  · split at he
    · exact Except.noConfusion he
    · split at he
      · next e2 heq =>
          exact no_error_of_exists_ok _
            (dagRun_ok (orchestratorDagHooks cfg) (orchestratorPexecOpts cfg crew)
              (orchestratorBuildWork (crew.agents.find? isWorkAgent)) plan mem
              (fun s => orchestratorBuildWork_status _ s)
              (orchestratorDagHooks_stepOk cfg hstep)
              (orchestratorDagHooks_waveStartOk cfg)
              (orchestratorDagHooks_waveCompleteOk cfg hwave)
              (runBatch_orch_ok cfg crew hbatchc))
            e2 heq
      · exact Except.noConfusion he

/-- C3 (amended): when the configured telemetry hooks that sit outside a
try/catch (`onPlanGenerated`, `onParallelBatchComplete`, `onPlanStepUpdate`,
`onPlanWaveComplete`) never raise, `run` resolves exactly when a crew roster
resolves and the route acquisition succeeds; a missing roster throws the
fixed no-crew error, and a failed route acquisition (parse ceiling
exhausted, a rejecting model call, or a failure-path route attempt hook
raise) forwards exactly its error. Without the hook proviso further paths
throw. -/
theorem run_aborts_only_roster_or_route_amended (cfg : CrewOrchestratorConfig)
    (options : OrchestratorRunOptions) (ts : TerminationState)
    (hgen : ∀ h, cfg.onPlanGenerated = some h → ∀ p v, h p v = .ok ())
    (hbatchc : ∀ h, cfg.onParallelBatchComplete = some h → ∀ s, h s = .ok ())
    (hstep : ∀ h, cfg.onPlanStepUpdate = some h → ∀ st ev, h st ev = .ok ())
    (hwave : ∀ h, cfg.onPlanWaveComplete = some h → ∀ w l, h w l = .ok ()) :
    ((∃ out, runOrchestrator cfg options ts = .ok out) ↔
      (∃ crew, resolveCrew cfg = some crew) ∧
      (∃ d, (acquireRouteDecision cfg options).outcome = .ok d)) ∧
    (resolveCrew cfg = none → runOrchestrator cfg options ts = .error noCrewText) ∧
    (∀ crew e, resolveCrew cfg = some crew →
      (acquireRouteDecision cfg options).outcome = .error e →
      runOrchestrator cfg options ts = .error e) := by
  refine ⟨⟨?_, ?_⟩, ?_, ?_⟩
  · rintro ⟨out, hout⟩
    cases hc : resolveCrew cfg with
    | none =>
      simp only [runOrchestrator, hc] at hout
      exact Except.noConfusion hout
    | some crew =>
      cases hro : (acquireRouteDecision cfg options).outcome with
      | error e =>
        simp only [runOrchestrator, hc, hro] at hout
        exact Except.noConfusion hout
      | ok d => exact ⟨⟨crew, rfl⟩, ⟨d, rfl⟩⟩
  · rintro ⟨⟨crew, hc⟩, ⟨d, hro⟩⟩
    cases hd : d.strategy with
    | plan_then_parallel =>
      obtain ⟨pm, hpp⟩ := plannerPhase_ok cfg crew options hgen
      obtain ⟨plan, mem1⟩ := pm
      obtain ⟨er, hex⟩ := executePlanThenParallel_ok cfg crew ts mem1 plan hbatchc hstep hwave
      obtain ⟨waves, plan2, mem2⟩ := er
      refine ⟨mkRunOutcome d true (some plan2) waves ts mem2, ?_⟩
      simp only [runOrchestrator, hc, hro, hd, hpp, hex]
    | direct_execution =>
      obtain ⟨dr, hde⟩ := executeDirectExecution_ok cfg crew ts emptyMemory hbatchc
      obtain ⟨waves, mem2⟩ := dr
      refine ⟨mkRunOutcome d false none waves ts mem2, ?_⟩
      simp only [runOrchestrator, hc, hro, hd, hde]
  · intro hn
    simp only [runOrchestrator, hn]
  · intro crew e hc he
    simp only [runOrchestrator, hc, he]

/-- C3 witness: for the hook-free configuration the equivalence holds, with
the crew resolving and the first-attempt route decision succeeding. -/
theorem run_aborts_only_roster_or_route_amended_witness :
    ((∃ out, runOrchestrator c3GoodCfg c3Opts initialTermination = .ok out) ↔
      (∃ crew, resolveCrew c3GoodCfg = some crew) ∧
      (∃ d, (acquireRouteDecision c3GoodCfg c3Opts).outcome = .ok d)) ∧
    (resolveCrew c3GoodCfg = none →
      runOrchestrator c3GoodCfg c3Opts initialTermination = .error noCrewText) ∧
    (∀ crew e, resolveCrew c3GoodCfg = some crew →
      (acquireRouteDecision c3GoodCfg c3Opts).outcome = .error e →
      runOrchestrator c3GoodCfg c3Opts initialTermination = .error e) :=
  run_aborts_only_roster_or_route_amended c3GoodCfg c3Opts initialTermination
    (fun _ hc => nomatch hc) (fun _ hc => nomatch hc)
    (fun _ hc => nomatch hc) (fun _ hc => nomatch hc)

/-- C8 counterexample: for the repository test suite's failing-planner
scenario (route decision parses as plan_then_parallel, planner output never
parses), the run falls back to the skeleton plan — but the returned plan's
step is status done, not pending: the result carries the plan as mutated by
execution. -/
theorem run_skeleton_status_counterexample :
    (match plannerPhaseTry c8Cfg c3Crew c3Opts with
     | .ok _ => true
     | .error _ => false) = false ∧
    (runOrchestrator c8Cfg c3Opts initialTermination).map
      (fun out => (out.result.planGenerated,
        out.result.plan.map (fun p => (p.rationale, p.steps.map (fun s => s.status))))) =
      .ok (true, some (some skeletonRationaleText, [some .done])) :=
  ⟨rfl, rfl⟩

theorem shapeEq_refl (steps : List PlanStep) : ShapeEq steps steps :=
  ⟨rfl, fun _ s' h => ⟨s', h, rfl, rfl, rfl⟩⟩

theorem shapeEq_trans {s1 s2 s3 : List PlanStep} (h12 : ShapeEq s1 s2)
    (h23 : ShapeEq s2 s3) : ShapeEq s1 s3 := by
  refine ⟨h23.1.trans h12.1, ?_⟩
  intro q s' h
  obtain ⟨t, ht, h1, h2, h3⟩ := h23.2 q s' h
  obtain ⟨u, hu, g1, g2, g3⟩ := h12.2 q t ht
  exact ⟨u, hu, h1.trans g1, h2.trans g2, h3.trans g3⟩

theorem shapeEq_set (steps : List PlanStep) (p : Nat) (s1 s : PlanStep)
    (hp : steps[p]? = some s)
    (h1 : s1.id = s.id) (h2 : s1.description = s.description)
    (h3 : s1.dependsOn = s.dependsOn) :
    ShapeEq steps (steps.set p s1) := by
  refine ⟨List.length_set steps p s1 ▸ rfl, ?_⟩
  intro q s' hq
  rw [List.getElem?_set] at hq
  by_cases hpq : p = q
  · rw [if_pos hpq] at hq
    by_cases hlt : p < steps.length
    · rw [if_pos hlt] at hq
      cases hq
      exact ⟨s, hpq ▸ hp, h1, h2, h3⟩
    · rw [if_neg hlt] at hq
      cases hq
  · rw [if_neg hpq] at hq
    exact ⟨s', hq, rfl, rfl, rfl⟩

theorem markRunning_shape {σ : Type} (hooks : DagHooks σ) :
    ∀ (g : List Nat) (steps : List PlanStep) (hs : σ) (out : List PlanStep × σ),
      markRunning hooks g steps hs = .ok out → ShapeEq steps out.1 := by
  intro g
  induction g with
  | nil =>
    intro steps hs out h
    simp only [markRunning, Except.ok.injEq] at h
    rw [← h]
    exact shapeEq_refl steps
  | cons p ps ih =>
    intro steps hs out h
    cases hp : steps[p]? with
    | none =>
      simp only [markRunning, hp] at h
      exact ih steps hs out h
    | some s =>
      simp only [markRunning, hp] at h
      cases hk : runStepHook hooks.onStepUpdate hs
          { s with status := some StepStatus.running } StepEvent.start with
      | error e =>
        simp only [hk] at h
        exact Except.noConfusion h
      | ok hs1 =>
        simp only [hk] at h
        exact shapeEq_trans
          (shapeEq_set steps p { s with status := some StepStatus.running } s hp rfl rfl rfl)
          (ih (steps.set p { s with status := some StepStatus.running }) hs1 out h)

theorem applyBuildWork_shape (bw : PlanStep → PlanStep × AgentWork)
    (hbws : ∀ s, ((bw s).1).id = s.id ∧ ((bw s).1).description = s.description ∧
      ((bw s).1).dependsOn = s.dependsOn) :
    ∀ (g : List Nat) (steps : List PlanStep), ShapeEq steps (applyBuildWork bw g steps).1 := by
  intro g
  induction g with
  | nil => intro steps; exact shapeEq_refl steps
  | cons p ps ih =>
    intro steps
    cases hp : steps[p]? with
    | none =>
      simp only [applyBuildWork, hp]
      exact ih steps
    | some s =>
      simp only [applyBuildWork, hp]
      have h2 := ih (steps.set p (bw s).1)
      cases hq : applyBuildWork bw ps (steps.set p (bw s).1) with
      | mk steps2 ws =>
        rw [hq] at h2
        exact shapeEq_trans
          (shapeEq_set steps p (bw s).1 s hp (hbws s).1 (hbws s).2.1 (hbws s).2.2) h2

theorem applyResults_shape {σ : Type} (hooks : DagHooks σ) (idxs : List Nat) :
    ∀ (rs : List AgentWorkResult) (steps : List PlanStep) (hs : σ) (ex : Nat)
      (out : List PlanStep × σ × Nat),
      applyResults hooks idxs rs steps hs ex = .ok out → ShapeEq steps out.1 := by
  intro rs
  induction rs with
  | nil =>
    intro steps hs ex out h
    simp only [applyResults, Except.ok.injEq] at h
    rw [← h]
    exact shapeEq_refl steps
  | cons r rs ih =>
    intro steps hs ex out h
    cases hm : findMatchIdx steps idxs r.agentId with
    | none =>
      simp only [applyResults, hm] at h
      exact ih steps hs ex out h
    | some p =>
      cases hq : steps[p]? with
      | none =>
        simp only [applyResults, hm, hq] at h
        exact ih steps hs ex out h
      | some st =>
        simp only [applyResults, hm, hq] at h
        set st1 := (if r.success = true then { st with status := some StepStatus.done }
          else { st with status := some StepStatus.error,
                         errorMessage := some (resultErrorText r) }) with hst1
        have hsh : st1.id = st.id ∧ st1.description = st.description ∧
            st1.dependsOn = st.dependsOn := by
          cases hr : r.success <;> simp [hst1, hr]
        cases hk : runStepHook hooks.onStepUpdate hs st1
            (if r.success = true then StepEvent.success else StepEvent.error) with
        | error e =>
          simp only [hk] at h
          exact Except.noConfusion h
        | ok hs1 =>
          simp only [hk] at h
          exact shapeEq_trans (shapeEq_set steps p st1 st hq hsh.1 hsh.2.1 hsh.2.2)
            (ih (steps.set p st1) hs1 (ex + 1) out h)

theorem processGroups_shape {σ : Type} (hooks : DagHooks σ)
    (opts : ParallelExecutorOptions) (bw : PlanStep → PlanStep × AgentWork)
    (hbws : ∀ s, ((bw s).1).id = s.id ∧ ((bw s).1).description = s.description ∧
      ((bw s).1).dependsOn = s.dependsOn) :
    ∀ (gs : List (List Nat)) (steps : List PlanStep) (hs : σ) (ex : Nat)
      (out : List PlanStep × σ × Nat),
      processGroups hooks opts bw gs steps hs ex = .ok out → ShapeEq steps out.1 := by
  intro gs
  induction gs with
  | nil =>
    intro steps hs ex out h
    simp only [processGroups, Except.ok.injEq] at h
    rw [← h]
    exact shapeEq_refl steps
  | cons g gs ih =>
    intro steps hs ex out h
    cases hm : markRunning hooks g steps hs with
    | error e =>
      simp only [processGroups, hm] at h
      exact Except.noConfusion h
    | ok out1 =>
      obtain ⟨steps1, hs1⟩ := out1
      simp only [processGroups, hm] at h
      cases hab : applyBuildWork bw g steps1 with
      | mk steps2 works =>
        rw [hab] at h
        cases hb : runBatch opts works with
        | error e =>
          simp only [hb] at h
          exact Except.noConfusion h
        | ok summary =>
          simp only [hb] at h
          cases ha : applyResults hooks g summary.results steps2 hs1 ex with
          | error e =>
            simp only [ha] at h
            exact Except.noConfusion h
          | ok out3 =>
            obtain ⟨steps3, hs3, ex3⟩ := out3
            simp only [ha] at h
            have hse : ShapeEq steps1 steps2 := by
              have := applyBuildWork_shape bw hbws g steps1
              rw [hab] at this
              exact this
            exact shapeEq_trans (markRunning_shape hooks g steps hs (steps1, hs1) hm)
              (shapeEq_trans hse
                (shapeEq_trans
                  (applyResults_shape hooks g summary.results steps2 hs1 ex
                    (steps3, hs3, ex3) ha)
                  (ih steps3 hs3 ex3 out h)))

theorem markDeadlocked_shape (steps : List PlanStep) : ShapeEq steps (markDeadlocked steps) := by
  refine ⟨by simp [markDeadlocked], ?_⟩
  intro q s' hq
  simp only [markDeadlocked, List.getElem?_map] at hq
  cases hs : steps[q]? with
  | none =>
    rw [hs] at hq
    cases hq
  | some s =>
    rw [hs] at hq
    simp only [Option.map_some'] at hq
    refine ⟨s, rfl, ?_⟩
    have hq2 := Option.some.inj hq
    rw [← hq2]
    by_cases ht : isTerminalStatus s.status = true
    · simp [ht]
    · simp [ht]

theorem dagLoop_shape {σ : Type} (hooks : DagHooks σ) (opts : ParallelExecutorOptions)
    (bw : PlanStep → PlanStep × AgentWork) (index : String → Option Nat)
    (hbws : ∀ s, ((bw s).1).id = s.id ∧ ((bw s).1).description = s.description ∧
      ((bw s).1).dependsOn = s.dependsOn) :
    ∀ (fuel : Nat) (steps : List PlanStep) (hs : σ) (waves ex : Nat)
      (fs : List PlanStep) (hs2 : σ) (res : PlanDagRunResult),
      dagLoop hooks opts bw index fuel steps hs waves ex = some (.ok (fs, hs2, res)) →
      ShapeEq steps fs := by
  intro fuel
  induction fuel with
  | zero =>
    intro steps hs waves ex fs hs2 res h
    simp only [dagLoop] at h
    exact Option.noConfusion h
  | succ fuel ih =>
    intro steps hs waves ex fs hs2 res h
    cases hready : readyIdxs index steps with
    | nil =>
      simp only [dagLoop, hready, Option.some.injEq, Except.ok.injEq, Prod.mk.injEq] at h
      by_cases hany : (steps.any fun s => !isTerminalStatus s.status) = true
      · rw [if_pos hany] at h
        rw [← h.1]
        exact markDeadlocked_shape steps
      · rw [if_neg hany] at h
        rw [← h.1]
        exact shapeEq_refl steps
    | cons r rs =>
      simp only [dagLoop, hready] at h
      cases hw1 : runWaveHook hooks.onWaveStart hs waves (stepsAt steps (r :: rs)) with
      | error e =>
        simp only [hw1] at h
        exact Except.noConfusion (Option.some.inj h)
      | ok hs1 =>
        simp only [hw1] at h
        cases hpg : processGroups hooks opts bw (waveGroups steps (r :: rs)) steps hs1 ex with
        | error e =>
          simp only [hpg] at h
          exact Except.noConfusion (Option.some.inj h)
        | ok out3 =>
          obtain ⟨steps2, hs2b, ex2⟩ := out3
          simp only [hpg] at h
          cases hw2 : runWaveHook hooks.onWaveComplete hs2b waves (stepsAt steps2 (r :: rs)) with
          | error e =>
            simp only [hw2] at h
            exact Except.noConfusion (Option.some.inj h)
          | ok hs3 =>
            simp only [hw2] at h
            exact shapeEq_trans
              (processGroups_shape hooks opts bw hbws (waveGroups steps (r :: rs)) steps hs1 ex
                (steps2, hs2b, ex2) hpg)
              (ih steps2 hs3 (waves + 1) ex2 fs hs2 res h)

theorem dagRun_shape {σ : Type} (hooks : DagHooks σ) (opts : ParallelExecutorOptions)
    (bw : PlanStep → PlanStep × AgentWork) (plan : Plan) (hs : σ)
    (hbws : ∀ s, ((bw s).1).id = s.id ∧ ((bw s).1).description = s.description ∧
      ((bw s).1).dependsOn = s.dependsOn)
    (fs : List PlanStep) (hs2 : σ) (res : PlanDagRunResult)
    (h : dagRun hooks opts bw plan hs = .ok (fs, hs2, res)) :
    ShapeEq plan.steps fs := by
  simp only [dagRun] at h
  cases hd : dagLoop hooks opts bw (stepIndexOf plan.steps) (pendCount plan.steps + 1)
      plan.steps hs 0 0 with
  | none =>
    rw [hd] at h
    exact Except.noConfusion h
  | some r =>
    rw [hd] at h
    cases r with
    | error e =>
      simp only [] at h
      exact Except.noConfusion h
    | ok out =>
      simp only [] at h
      rw [h] at hd
      exact dagLoop_shape hooks opts bw (stepIndexOf plan.steps) hbws
        (pendCount plan.steps + 1) plan.steps hs 0 0 fs hs2 res hd

theorem orchestratorBuildWork_shape (da : Option CrewAgent) (s : PlanStep) :
    ((orchestratorBuildWork da s).1).id = s.id ∧
    ((orchestratorBuildWork da s).1).description = s.description ∧
    ((orchestratorBuildWork da s).1).dependsOn = s.dependsOn := by
  cases da with
  | none => exact ⟨rfl, rfl, rfl⟩
  | some a =>
    simp only [orchestratorBuildWork]
    split
    · exact ⟨rfl, rfl, rfl⟩
    · exact ⟨rfl, rfl, rfl⟩

theorem markRunning_state {σ : Type} (hooks : DagHooks σ) (P : σ → Prop)
    (hpres : ∀ (hs : σ) (s : PlanStep) (e : StepEvent) (hs' : σ),
      runStepHook hooks.onStepUpdate hs s e = .ok hs' → P hs → P hs') :
    ∀ (g : List Nat) (steps : List PlanStep) (hs : σ) (out : List PlanStep × σ),
      markRunning hooks g steps hs = .ok out → P hs → P out.2 := by
  intro g
  induction g with
  | nil =>
    intro steps hs out h hp
    simp only [markRunning, Except.ok.injEq] at h
    rw [← h]
    exact hp
  | cons p ps ih =>
    intro steps hs out h hp
    cases hq : steps[p]? with
    | none =>
      simp only [markRunning, hq] at h
      exact ih steps hs out h hp
    | some s =>
      simp only [markRunning, hq] at h
      cases hk : runStepHook hooks.onStepUpdate hs
          { s with status := some StepStatus.running } StepEvent.start with
      | error e =>
        simp only [hk] at h
        exact Except.noConfusion h
      | ok hs1 =>
        simp only [hk] at h
        exact ih (steps.set p { s with status := some StepStatus.running }) hs1 out h
          (hpres hs _ _ hs1 hk hp)

theorem applyResults_state {σ : Type} (hooks : DagHooks σ) (idxs : List Nat) (P : σ → Prop)
    (hpres : ∀ (hs : σ) (s : PlanStep) (e : StepEvent) (hs' : σ),
      runStepHook hooks.onStepUpdate hs s e = .ok hs' → P hs → P hs') :
    ∀ (rs : List AgentWorkResult) (steps : List PlanStep) (hs : σ) (ex : Nat)
      (out : List PlanStep × σ × Nat),
      applyResults hooks idxs rs steps hs ex = .ok out → P hs → P out.2.1 := by
  intro rs
  induction rs with
  | nil =>
    intro steps hs ex out h hp
    simp only [applyResults, Except.ok.injEq] at h
    rw [← h]
    exact hp
  | cons r rs ih =>
    intro steps hs ex out h hp
    cases hm : findMatchIdx steps idxs r.agentId with
    | none =>
      simp only [applyResults, hm] at h
      exact ih steps hs ex out h hp
    | some p =>
      cases hq : steps[p]? with
      | none =>
        simp only [applyResults, hm, hq] at h
        exact ih steps hs ex out h hp
      | some st =>
        simp only [applyResults, hm, hq] at h
        cases hk : runStepHook hooks.onStepUpdate hs
            (if r.success = true then { st with status := some StepStatus.done }
             else { st with status := some StepStatus.error,
                            errorMessage := some (resultErrorText r) })
            (if r.success = true then StepEvent.success else StepEvent.error) with
        | error e =>
          simp only [hk] at h
          exact Except.noConfusion h
        | ok hs1 =>
          simp only [hk] at h
          exact ih (steps.set p _) hs1 (ex + 1) out h (hpres hs _ _ hs1 hk hp)

theorem processGroups_state {σ : Type} (hooks : DagHooks σ) (opts : ParallelExecutorOptions)
    (bw : PlanStep → PlanStep × AgentWork) (P : σ → Prop)
    (hpres : ∀ (hs : σ) (s : PlanStep) (e : StepEvent) (hs' : σ),
      runStepHook hooks.onStepUpdate hs s e = .ok hs' → P hs → P hs') :
    ∀ (gs : List (List Nat)) (steps : List PlanStep) (hs : σ) (ex : Nat)
      (out : List PlanStep × σ × Nat),
      processGroups hooks opts bw gs steps hs ex = .ok out → P hs → P out.2.1 := by
  intro gs
  induction gs with
  | nil =>
    intro steps hs ex out h hp
    simp only [processGroups, Except.ok.injEq] at h
    rw [← h]
    exact hp
  | cons g gs ih =>
    intro steps hs ex out h hp
    cases hm : markRunning hooks g steps hs with
    | error e =>
      simp only [processGroups, hm] at h
      exact Except.noConfusion h
    | ok out1 =>
      obtain ⟨steps1, hs1⟩ := out1
      simp only [processGroups, hm] at h
      cases hab : applyBuildWork bw g steps1 with
      | mk steps2 works =>
        rw [hab] at h
        cases hb : runBatch opts works with
        | error e =>
          simp only [hb] at h
          exact Except.noConfusion h
        | ok summary =>
          simp only [hb] at h
          cases ha : applyResults hooks g summary.results steps2 hs1 ex with
          | error e =>
            simp only [ha] at h
            exact Except.noConfusion h
          | ok out3 =>
            obtain ⟨steps3, hs3, ex3⟩ := out3
            simp only [ha] at h
            exact ih steps3 hs3 ex3 out h
              (applyResults_state hooks g P hpres summary.results steps2 hs1 ex
                (steps3, hs3, ex3) ha
                (markRunning_state hooks P hpres g steps hs (steps1, hs1) hm hp))

theorem dagLoop_state {σ : Type} (hooks : DagHooks σ) (opts : ParallelExecutorOptions)
    (bw : PlanStep → PlanStep × AgentWork) (index : String → Option Nat) (P : σ → Prop)
    (hpres : ∀ (hs : σ) (s : PlanStep) (e : StepEvent) (hs' : σ),
      runStepHook hooks.onStepUpdate hs s e = .ok hs' → P hs → P hs')
    (hpws : ∀ (hs : σ) (w : Nat) (l : List PlanStep) (hs' : σ),
      runWaveHook hooks.onWaveStart hs w l = .ok hs' → P hs → P hs')
    (hpwc : ∀ (hs : σ) (w : Nat) (l : List PlanStep) (hs' : σ),
      runWaveHook hooks.onWaveComplete hs w l = .ok hs' → P hs → P hs') :
    ∀ (fuel : Nat) (steps : List PlanStep) (hs : σ) (waves ex : Nat)
      (fs : List PlanStep) (hs2 : σ) (res : PlanDagRunResult),
      dagLoop hooks opts bw index fuel steps hs waves ex = some (.ok (fs, hs2, res)) →
      P hs → P hs2 := by
  intro fuel
  induction fuel with
  | zero =>
    intro steps hs waves ex fs hs2 res h _
    simp only [dagLoop] at h
    exact Option.noConfusion h
  | succ fuel ih =>
    intro steps hs waves ex fs hs2 res h hp
    cases hready : readyIdxs index steps with
    | nil =>
      simp only [dagLoop, hready, Option.some.injEq, Except.ok.injEq, Prod.mk.injEq] at h
      rw [← h.2.1]
      exact hp
    | cons r rs =>
      simp only [dagLoop, hready] at h
      cases hw1 : runWaveHook hooks.onWaveStart hs waves (stepsAt steps (r :: rs)) with
      | error e =>
        simp only [hw1] at h
        exact Except.noConfusion (Option.some.inj h)
      | ok hs1 =>
        simp only [hw1] at h
        cases hpg : processGroups hooks opts bw (waveGroups steps (r :: rs)) steps hs1 ex with
        | error e =>
          simp only [hpg] at h
          exact Except.noConfusion (Option.some.inj h)
        | ok out3 =>
          obtain ⟨steps2, hs2b, ex2⟩ := out3
          simp only [hpg] at h
          cases hw2 : runWaveHook hooks.onWaveComplete hs2b waves (stepsAt steps2 (r :: rs)) with
          | error e =>
            simp only [hw2] at h
            exact Except.noConfusion (Option.some.inj h)
          | ok hs3 =>
            simp only [hw2] at h
            exact ih steps2 hs3 (waves + 1) ex2 fs hs2 res h
              (hpwc hs2b waves (stepsAt steps2 (r :: rs)) hs3 hw2
                (processGroups_state hooks opts bw P hpres (waveGroups steps (r :: rs))
                  steps hs1 ex (steps2, hs2b, ex2) hpg
                  (hpws hs waves (stepsAt steps (r :: rs)) hs1 hw1 hp)))

theorem dagRun_state {σ : Type} (hooks : DagHooks σ) (opts : ParallelExecutorOptions)
    (bw : PlanStep → PlanStep × AgentWork) (plan : Plan) (hs : σ) (P : σ → Prop)
    (hpres : ∀ (hs1 : σ) (s : PlanStep) (e : StepEvent) (hs' : σ),
      runStepHook hooks.onStepUpdate hs1 s e = .ok hs' → P hs1 → P hs')
    (hpws : ∀ (hs1 : σ) (w : Nat) (l : List PlanStep) (hs' : σ),
      runWaveHook hooks.onWaveStart hs1 w l = .ok hs' → P hs1 → P hs')
    (hpwc : ∀ (hs1 : σ) (w : Nat) (l : List PlanStep) (hs' : σ),
      runWaveHook hooks.onWaveComplete hs1 w l = .ok hs' → P hs1 → P hs')
    (fs : List PlanStep) (hs2 : σ) (res : PlanDagRunResult)
    (h : dagRun hooks opts bw plan hs = .ok (fs, hs2, res)) (hp : P hs) : P hs2 := by
  simp only [dagRun] at h
  cases hd : dagLoop hooks opts bw (stepIndexOf plan.steps) (pendCount plan.steps + 1)
      plan.steps hs 0 0 with
  | none =>
    rw [hd] at h
    exact Except.noConfusion h
  | some r =>
    rw [hd] at h
    cases r with
    | error e =>
      simp only [] at h
      exact Except.noConfusion h
    | ok out =>
      simp only [] at h
      rw [h] at hd
      exact dagLoop_state hooks opts bw (stepIndexOf plan.steps) P hpres hpws hpwc
        (pendCount plan.steps + 1) plan.steps hs 0 0 fs hs2 res hd hp

theorem pushEntry_inv (m : ShortTermMemory) (e : MemoryEntry) (h : MemLedgerInv m) :
    MemLedgerInv (pushEntry m e) := by
  obtain ⟨hmax, hlen, hobs⟩ := h
  have hlenes : (m.entries ++ [e]).length = m.entries.length + 1 := by simp
  by_cases hful : m.entries.length = 200
  · have hcond : (m.entries ++ [e]).length > m.maxEntries := by
      rw [hlenes, hmax, hful]
      omega
    refine ⟨hmax, ?_, Or.inr ?_⟩
    · simp only [pushEntry, if_pos hcond, List.length_drop]
      rw [hlenes, hmax]
      omega
    · simp only [pushEntry, if_pos hcond, List.length_drop]
      rw [hlenes, hmax]
      omega
  · have hcond : ¬ (m.entries ++ [e]).length > m.maxEntries := by
      rw [hlenes, hmax]
      omega
    have hobs2 : hasPlannerFailObs m = true := by
      rcases hobs with h1 | h2
      · exact h1
      · exact absurd h2 hful
    refine ⟨hmax, ?_, Or.inl ?_⟩
    · simp only [pushEntry, if_neg hcond]
      rw [hlenes]
      omega
    · simp only [pushEntry, if_neg hcond, hasPlannerFailObs, List.any_append]
      simp only [hasPlannerFailObs] at hobs2
      rw [hobs2]
      rfl

theorem orchestratorDagHooks_step_inv (cfg : CrewOrchestratorConfig) :
    ∀ (mem : ShortTermMemory) (s : PlanStep) (e : StepEvent) (m' : ShortTermMemory),
      runStepHook (orchestratorDagHooks cfg).onStepUpdate mem s e = .ok m' →
      MemLedgerInv mem → MemLedgerInv m' := by
  intro mem s e m' h hp
  revert h
  have hmem1 : MemLedgerInv
      (match e with
       | StepEvent.start => appendThought mem ("Step " ++ s.id ++ " started")
       | StepEvent.success =>
         appendObservation mem ("Step " ++ s.id ++ " completed: " ++ s.description) (some true)
       | StepEvent.error =>
         appendObservation mem ("Step " ++ s.id ++ " failed: " ++ (s.errorMessage.getD "undefined"))
           (some false)) := by
    cases e
    · exact pushEntry_inv mem _ hp
    · exact pushEntry_inv mem _ hp
    · exact pushEntry_inv mem _ hp
  intro h
  simp only [orchestratorDagHooks, runStepHook] at h
  cases hc : cfg.onPlanStepUpdate with
  | none =>
    simp only [hc] at h
    cases h
    exact hmem1
  | some hk =>
    simp only [hc] at h
    cases hkr : hk s e with
    | error e2 =>
      simp only [hkr, Except.map] at h
      exact Except.noConfusion h
    | ok u =>
      simp only [hkr, Except.map] at h
      cases h
      exact hmem1

theorem orchestratorDagHooks_waveStart_inv (cfg : CrewOrchestratorConfig) :
    ∀ (mem : ShortTermMemory) (w : Nat) (l : List PlanStep) (m' : ShortTermMemory),
      runWaveHook (orchestratorDagHooks cfg).onWaveStart mem w l = .ok m' →
      MemLedgerInv mem → MemLedgerInv m' := by
  intro mem w l m' h hp
  simp only [orchestratorDagHooks, runWaveHook] at h
  cases h
  exact hp

theorem orchestratorDagHooks_waveComplete_inv (cfg : CrewOrchestratorConfig) :
    ∀ (mem : ShortTermMemory) (w : Nat) (l : List PlanStep) (m' : ShortTermMemory),
      runWaveHook (orchestratorDagHooks cfg).onWaveComplete mem w l = .ok m' →
      MemLedgerInv mem → MemLedgerInv m' := by
  intro mem w l m' h hp
  simp only [orchestratorDagHooks, runWaveHook] at h
  cases hc : cfg.onPlanWaveComplete with
  | none =>
    simp only [hc] at h
    cases h
    exact pushEntry_inv mem _ hp
  | some hk =>
    simp only [hc] at h
    cases hkr : hk w l with
    | error e2 =>
      simp only [hkr, Except.map] at h
      exact Except.noConfusion h
    | ok u =>
      simp only [hkr, Except.map] at h
      cases h
      exact pushEntry_inv mem _ hp

theorem executePlanThenParallel_spec (cfg : CrewOrchestratorConfig) (crew : Crew)
    (ts : TerminationState) (mem : ShortTermMemory) (plan : Plan)
    (waves : Nat) (plan2 : Plan) (mem2 : ShortTermMemory)
    (h : executePlanThenParallel cfg crew ts mem plan = .ok (waves, plan2, mem2)) :
    plan2.rationale = plan.rationale ∧ ShapeEq plan.steps plan2.steps ∧
      (MemLedgerInv mem → MemLedgerInv mem2) := by
  simp only [executePlanThenParallel] at h
  by_cases h1 : ts.terminated = true
  · rw [if_pos h1] at h
    injection h with h2
    simp only [Prod.mk.injEq] at h2
    obtain ⟨_, hb, hc⟩ := h2
    subst hb
    subst hc
    exact ⟨rfl, shapeEq_refl _, fun hp => hp⟩
  · rw [if_neg h1] at h
    by_cases h2 : plan.steps.length = 0
    · rw [if_pos h2] at h
      injection h with h3
      simp only [Prod.mk.injEq] at h3
      obtain ⟨_, hb, hc⟩ := h3
      subst hb
      subst hc
      exact ⟨rfl, shapeEq_refl _, fun hp => hp⟩
    · rw [if_neg h2] at h
      cases hd : dagRun (orchestratorDagHooks cfg) (orchestratorPexecOpts cfg crew)
          (orchestratorBuildWork (crew.agents.find? isWorkAgent)) plan mem with
      | error e =>
        simp only [hd] at h
        exact Except.noConfusion h
      | ok out =>
        obtain ⟨finalSteps, memd, result⟩ := out
        simp only [hd] at h
        injection h with h3
        simp only [Prod.mk.injEq] at h3
        obtain ⟨_, hb, hc⟩ := h3
        subst hb
        subst hc
        refine ⟨rfl, ?_, ?_⟩
        · exact dagRun_shape (orchestratorDagHooks cfg) (orchestratorPexecOpts cfg crew)
            (orchestratorBuildWork (crew.agents.find? isWorkAgent)) plan mem
            (fun s => orchestratorBuildWork_shape _ s) finalSteps memd result hd
        · intro hp
          refine pushEntry_inv _ _ ?_
          exact dagRun_state (orchestratorDagHooks cfg) (orchestratorPexecOpts cfg crew)
            (orchestratorBuildWork (crew.agents.find? isWorkAgent)) plan mem MemLedgerInv
            (orchestratorDagHooks_step_inv cfg) (orchestratorDagHooks_waveStart_inv cfg)
            (orchestratorDagHooks_waveComplete_inv cfg) finalSteps memd result hd hp

theorem skeletonSteps_spec (goal : String) :
    ∀ (agents : List CrewAgent) (idx : Nat),
      (generateSkeletonPlan.skeletonSteps idx agents goal).length = agents.length ∧
      ∀ (i : Nat) (a : CrewAgent), agents[i]? = some a →
        (generateSkeletonPlan.skeletonSteps idx agents goal)[i]? = some
          { id := "step_" ++ natToDec (idx + i + 1) ++ "_" ++ a.id,
            description := "Have agent \x27" ++ (if a.role = "" then a.id else a.role) ++
              "\x27 contribute toward goal: " ++ goal,
            agentId := some a.id, parallelGroup := a.parallelGroup,
            dependsOn := some [], status := some StepStatus.pending,
            errorMessage := none } := by
  intro agents
  induction agents with
  | nil =>
    intro idx
    refine ⟨rfl, ?_⟩
    intro i a hi
    simp at hi
  | cons a rest ih =>
    intro idx
    constructor
    · simp only [generateSkeletonPlan.skeletonSteps, List.length_cons]
      rw [(ih (idx + 1)).1]
    · intro i a2 hi
      cases i with
      | zero =>
        simp only [List.getElem?_cons_zero, Option.some_inj] at hi
        subst hi
        simp only [generateSkeletonPlan.skeletonSteps, List.getElem?_cons_zero]
      | succ j =>
        simp only [List.getElem?_cons_succ] at hi
        have hh := (ih (idx + 1)).2 j a2 hi
        rw [(show idx + 1 + j + 1 = idx + (j + 1) + 1 by omega)] at hh
        simp only [generateSkeletonPlan.skeletonSteps, List.getElem?_cons_succ]
        exact hh

theorem plannerPhase_fallback (cfg : CrewOrchestratorConfig) (crew : Crew)
    (options : OrchestratorRunOptions) (e : String)
    (hfail : plannerPhaseTry cfg crew options = .error e)
    (hgen : ∀ h, cfg.onPlanGenerated = some h → ∀ p v, h p v = .ok ()) :
    plannerPhase cfg crew options = .ok (generateSkeletonPlan (some crew) options.goal,
      appendObservation
        (appendThought emptyMemory
          ("Fallback plan rationale: " ++ jsTake skeletonRationaleText 200))
        plannerFailObsText (some false)) := by
  have hrg : ∀ p v, runPlanGeneratedHook cfg p v = .ok () := by
    intro p v
    simp only [runPlanGeneratedHook]
    cases hc : cfg.onPlanGenerated with
    | none => rfl
    | some h => exact hgen h hc p v
  simp only [plannerPhase, hfail, hrg]
  rfl

/-- C8 (amended): when the route decision is plan_then_parallel, the planner
invocation throws, and the caller-supplied hooks do not themselves throw,
`run` returns a result with planGenerated = true whose plan carries the
skeleton rationale; the skeleton generator produces exactly one pending step
per enabled, non-reflection agent, each with an empty dependency list, the
agent assigned and the description derived from the agent role and the goal;
the returned plan's steps are those steps as mutated by execution (identity
fields intact — their status is no longer pending on the success path); and
the returned ledger holds the planner-failure observation unless the
200-entry cap was reached during execution. -/
theorem run_skeleton_fallback_amended (cfg : CrewOrchestratorConfig)
    (options : OrchestratorRunOptions) (ts : TerminationState) (crew : Crew)
    (d : RouteDecision) (e : String)
    (hcrew : resolveCrew cfg = some crew)
    (hroute : (acquireRouteDecision cfg options).outcome = .ok d)
    (hd : d.strategy = .plan_then_parallel)
    (hfail : plannerPhaseTry cfg crew options = .error e)
    (hgen : ∀ h, cfg.onPlanGenerated = some h → ∀ p v, h p v = .ok ())
    (hbatchc : ∀ h, cfg.onParallelBatchComplete = some h → ∀ s, h s = .ok ())
    (hstep : ∀ h, cfg.onPlanStepUpdate = some h → ∀ st ev, h st ev = .ok ())
    (hwave : ∀ h, cfg.onPlanWaveComplete = some h → ∀ w l, h w l = .ok ()) :
    ∃ out plan2,
      runOrchestrator cfg options ts = .ok out ∧
      out.result.planGenerated = true ∧
      out.result.plan = some plan2 ∧
      plan2.rationale = some skeletonRationaleText ∧
      ShapeEq (generateSkeletonPlan (some crew) options.goal).steps plan2.steps ∧
      (generateSkeletonPlan (some crew) options.goal).steps.length =
        (crew.agents.filter isWorkAgent).length ∧
      (∀ (i : Nat) (a : CrewAgent), (crew.agents.filter isWorkAgent)[i]? = some a →
        (generateSkeletonPlan (some crew) options.goal).steps[i]? = some
          { id := "step_" ++ natToDec (i + 1) ++ "_" ++ a.id,
            description := "Have agent \x27" ++ (if a.role = "" then a.id else a.role) ++
              "\x27 contribute toward goal: " ++ options.goal,
            agentId := some a.id, parallelGroup := a.parallelGroup,
            dependsOn := some [], status := some StepStatus.pending,
            errorMessage := none }) ∧
      (hasPlannerFailObs out.memory = true ∨ out.memory.entries.length = 200) := by
  have hpp := plannerPhase_fallback cfg crew options e hfail hgen
  obtain ⟨er, hex⟩ := executePlanThenParallel_ok cfg crew ts
    (appendObservation
      (appendThought emptyMemory
        ("Fallback plan rationale: " ++ jsTake skeletonRationaleText 200))
      plannerFailObsText (some false))
    (generateSkeletonPlan (some crew) options.goal) hbatchc hstep hwave
  obtain ⟨waves, plan2, mem2⟩ := er
  have hspec := executePlanThenParallel_spec cfg crew ts _ _ waves plan2 mem2 hex
  have hrun : runOrchestrator cfg options ts =
      .ok (mkRunOutcome d true (some plan2) waves ts mem2) := by
    simp only [runOrchestrator, hcrew, hroute, hd, hpp, hex]
  have hmemInit : MemLedgerInv
      (appendObservation
        (appendThought emptyMemory
          ("Fallback plan rationale: " ++ jsTake skeletonRationaleText 200))
        plannerFailObsText (some false)) := by
    refine ⟨rfl, by decide, Or.inl rfl⟩
  refine ⟨mkRunOutcome d true (some plan2) waves ts mem2, plan2, hrun, rfl, rfl, ?_,
    hspec.2.1, (skeletonSteps_spec options.goal (crew.agents.filter isWorkAgent) 0).1,
    ?_, ?_⟩
  · rw [hspec.1]
    rfl
  · intro i a hi
    have hh := (skeletonSteps_spec options.goal (crew.agents.filter isWorkAgent) 0).2 i a hi
    rw [(show 0 + i + 1 = i + 1 by omega)] at hh
    exact hh
  · exact (hspec.2.2 hmemInit).2.2

/-- C8 witness: the repository test suite's failing-planner scenario (one
worker crew, plan_then_parallel route, planner output never parses) — the
skeleton fallback plan is produced with its single pending step and the
failure observation survives in the ledger. -/
theorem run_skeleton_fallback_amended_witness :
    ∃ out plan2,
      runOrchestrator c8Cfg c3Opts initialTermination = .ok out ∧
      out.result.planGenerated = true ∧
      out.result.plan = some plan2 ∧
      plan2.rationale = some skeletonRationaleText ∧
      ShapeEq (generateSkeletonPlan (some c3Crew) c3Opts.goal).steps plan2.steps ∧
      (generateSkeletonPlan (some c3Crew) c3Opts.goal).steps.length =
        (c3Crew.agents.filter isWorkAgent).length ∧
      (∀ (i : Nat) (a : CrewAgent), (c3Crew.agents.filter isWorkAgent)[i]? = some a →
        (generateSkeletonPlan (some c3Crew) c3Opts.goal).steps[i]? = some
          { id := "step_" ++ natToDec (i + 1) ++ "_" ++ a.id,
            description := "Have agent \x27" ++ (if a.role = "" then a.id else a.role) ++
              "\x27 contribute toward goal: " ++ c3Opts.goal,
            agentId := some a.id, parallelGroup := a.parallelGroup,
            dependsOn := some [], status := some StepStatus.pending,
            errorMessage := none }) ∧
      (hasPlannerFailObs out.memory = true ∨ out.memory.entries.length = 200) :=
  run_skeleton_fallback_amended c8Cfg c3Opts initialTermination c3Crew
    { strategy := .plan_then_parallel, rationale := "Need planning" }
    "Planner: failed to obtain valid plan after 3 attempts. Last error: Plan parse error: no JSON object found."
    rfl rfl rfl rfl
    (fun _ hc => nomatch hc) (fun _ hc => nomatch hc)
    (fun _ hc => nomatch hc) (fun _ hc => nomatch hc)
